import Mathlib

/-!
# d2vm: the `build` command and its docker helper

A shallow embedding of `cmd/d2vm/build.go` (the `RunE` closure of `buildCmd`) and of
`pkg/docker/docker.go` (`Build`, `RunD2VM`, `RunInteractiveAndRemove`, `dockerSocket`).

Go strings are Lean `String`s. The functions of Go's `path/filepath` and `strings` packages
that the two files call are modelled for a Unix-like host (separator `/`, no volume names),
first on lists of characters, then wrapped for `String`.
-/

namespace D2vm

/-! ## Go's `path/filepath`, Unix flavour -/

/-- One path element: the characters between two separators. -/
abbrev Elem := List Char

/-- The `..` element. -/
def dotdot : Elem := ['.', '.']

/-- Cut a path at every `/`; the result always has at least one element. -/
def splitSep : List Char → List Elem
  | [] => [[]]
  | c :: cs =>
    if c = '/' then [] :: splitSep cs
    else
      match splitSep cs with
      | [] => [[c]]
      | w :: ws => (c :: w) :: ws

/-- Go's `strings.Join(elems, "/")`. -/
def joinSep : List Elem → List Char
  | [] => []
  | [w] => w
  | w :: ws => w ++ '/' :: joinSep ws

/-- The elements `Clean` looks at: empty elements and `.` elements are skipped. -/
def pathElems (p : List Char) : List Elem :=
  (splitSep p).filter fun w => !(w == [] || w == ['.'])

/-- What `Clean` does with one element. The output buffer is kept as a stack, last element
first. A `..` removes the last element when there is one to back up over (`out.w > dotdot`),
is dropped at the root of a rooted path, and is kept at the start of a relative one. -/
def cleanStep (rooted : Bool) (stk : List Elem) (e : Elem) : List Elem :=
  if e = dotdot then
    match stk with
    | [] => if rooted then [] else [e]
    | top :: rest => if top = dotdot then (if rooted then stk else e :: stk) else rest
  else e :: stk

/-- The elements of the cleaned path, in order. -/
def cleanElems (rooted : Bool) (es : List Elem) : List Elem :=
  (es.foldl (cleanStep rooted) []).reverse

/-- Go's `filepath.Clean` on characters. -/
def cleanChars (p : List Char) : List Char :=
  match p with
  | [] => ['.']
  | c :: _ =>
    let rooted := c == '/'
    let body := joinSep (cleanElems rooted (pathElems p))
    if rooted then '/' :: body else if body = [] then ['.'] else body

/-- Go's `filepath.Join` on characters: leading empty elements are ignored, the rest is
joined with `/` and cleaned; no non-empty element gives the empty string. -/
def joinChars : List (List Char) → List Char
  | [] => []
  | e :: rest => if e = [] then joinChars rest else cleanChars (joinSep (e :: rest))

/-- Go's `filepath.Base` on characters. -/
def baseChars (p : List Char) : List Char :=
  if p = [] then ['.']
  else
    let q := (p.reverse.dropWhile (· == '/')).reverse
    let last := (q.reverse.takeWhile (· != '/')).reverse
    if last = [] then ['/'] else last

/-- Go's `filepath.Dir` on characters: everything up to and including the last separator,
cleaned. -/
def dirChars (p : List Char) : List Char :=
  cleanChars (p.reverse.dropWhile (· != '/')).reverse

/-- The elements the scanning loop of `Rel` walks through in a cleaned path. -/
def relElems (p : List Char) : List Elem :=
  if p = [] then [] else if p = ['/'] then [[]] else splitSep p

/-- The scanning loop of `Rel`: skip the elements the two paths share. Returns `base[b0:bi]`
and what is left of both paths. -/
def relScan : List Elem → List Elem → Elem × List Elem × List Elem
  | b :: bs, t :: ts => if b = t then relScan bs ts else (b, b :: bs, t :: ts)
  | bs, ts => ([], bs, ts)

/-- Go's `filepath.Rel` on characters; `none` is the error "Rel: can't make ... relative
to ...". -/
def relChars (basepath targpath : List Char) : Option (List Char) :=
  let base := cleanChars basepath
  let targ := cleanChars targpath
  if targ = base then some ['.']
  else
    let base := if base = ['.'] then [] else base
    if (base.head? == some '/') != (targ.head? == some '/') then none
    else
      match relScan (relElems base) (relElems targ) with
      | (cur, bs, ts) =>
        if cur = dotdot then none
        else if bs ≠ [] then
          let up := joinSep (bs.map fun _ => dotdot)
          let rest := joinSep ts
          some (if rest ≠ [] then up ++ '/' :: rest else up)
        else some (joinSep ts)

/-- Go's `filepath.Clean`. -/
def Clean (p : String) : String := ⟨cleanChars p.data⟩

/-- Go's `filepath.Join`. -/
def Join (elems : List String) : String := ⟨joinChars (elems.map String.data)⟩

/-- Go's `filepath.Base`. -/
def Base (p : String) : String := ⟨baseChars p.data⟩

/-- Go's `filepath.Dir`. -/
def Dir (p : String) : String := ⟨dirChars p.data⟩

/-- Go's `filepath.IsAbs` on Unix. -/
def IsAbs (p : String) : Bool := p.data.head? == some '/'

/-- Go's `strings.HasPrefix`. -/
def HasPrefix (s pre : String) : Bool := pre.data.isPrefixOf s.data

end D2vm

namespace D2vm

/-- Go's `filepath.Rel`; the error is the message Go builds. -/
def Rel (basepath targpath : String) : Except String String :=
  match relChars basepath.data targpath.data with
  | some r => .ok ⟨r⟩
  | none => .error ("Rel: can't make " ++ targpath ++ " relative to " ++ basepath)

/-- Go's `filepath.Abs` on Unix, given what `os.Getwd` returns. -/
def Abs (getwd : Except String String) (path : String) : Except String String :=
  if IsAbs path then .ok (Clean path)
  else
    match getwd with
    | .error e => .error e
    | .ok wd => .ok (Join [wd, path])

deriving instance DecidableEq for Except

/-- Go's `%d` verb of `fmt.Sprintf`. -/
def fmtInt (n : Int) : String := toString n

/-! ## The outside world -/

/-- A Go `error` value, by its message; `none : Option Err` is `nil`. -/
abbrev Err := String

/-- The options `RunE` hands to `d2vm.Convert`, with the tag. -/
structure ConvertCall where
  tag : String
  size : Int
  password : String
  output : String
  cmdLineExtra : String
  networkManager : String
  raw : Bool
deriving DecidableEq, Repr

/-- What `os.Stat` can answer, as far as `RunE` tells the answers apart. -/
inductive StatResult
  | found
  | notExist
  | failed (e : Err)
deriving DecidableEq, Repr

/-- One step performed outside the process. -/
inductive Event
  /-- Call `os.Stat(path)`. -/
  | stat (path : String)
  /-- Call `exec.Run(ctx, name, args...)` of `pkg/exec`. -/
  | run (name : String) (args : List String)
  /-- Call `exec.CommandContext(ctx, name, args...).Run()` with the standard streams attached. -/
  | interactive (name : String) (args : List String)
  /-- Call `d2vm.Convert`. -/
  | convert (c : ConvertCall)
  /-- Call `os.Chown(path, uid, gid)`. -/
  | chown (path : String) (uid gid : Int)
deriving DecidableEq, Repr

/-- Everything the two files read from, or ask of, their environment. The functions and
constants of the repository that are not in the two files (`isRoot`, `sudoUser`, `parseSize`,
`d2vm.Image`, `d2vm.Version`, `d2vm.Convert`, `exec.Run`) are fields too. -/
structure World where
  /-- The constant `runtime.GOOS`. -/
  goos : String
  /-- Result of `isRoot()`. -/
  isRoot : Bool
  /-- Result of `os.Getwd()`. -/
  getwd : Except Err String
  /-- Result of `os.Getuid()`. -/
  getuid : Int
  /-- The constant `d2vm.Image`. -/
  image : String
  /-- The constant `d2vm.Version`. -/
  version : String
  /-- The function `parseSize`. -/
  parseSize : String → Except Err Int
  /-- Result of `sudoUser()`: the uid when `ok` is true. -/
  sudoUser : Option Int
  /-- Answer of `os.Stat`. -/
  stat : String → StatResult
  /-- Error returned by `exec.Run`. -/
  run : String → List String → Option Err
  /-- Error returned by `(*exec.Cmd).Run`. -/
  runInteractive : String → List String → Option Err
  /-- Error returned by `d2vm.Convert`. -/
  convert : ConvertCall → Option Err
  /-- Error returned by `os.Chown`. -/
  chown : String → Int → Int → Option Err

/-- What a call returns and the steps it performed, in order. -/
structure Result where
  err : Option Err
  trace : List Event

/-! ## `pkg/docker/docker.go` -/

/-- Go's `dockerSocket`. -/
def dockerSocket (w : World) : String :=
  if w.goos = "windows" then "//var/run/docker.sock" else "/var/run/docker.sock"

/-- Go's `docker.Cmd`. -/
def Cmd (w : World) (args : List String) : Result :=
  ⟨w.run "docker" args, [Event.run "docker" args]⟩

/-- The argument list `docker.Build` assembles. -/
def buildArgv (tag dockerfile dir : String) (buildArgs : List String) : List String :=
  let dockerfile := if dockerfile = "" then Join [dir, "Dockerfile"] else dockerfile
  let args := ["image", "build", "-t", tag, "-f", dockerfile]
  let args := buildArgs.foldl (fun args v => args ++ ["--build-arg", v]) args
  args ++ [dir]

/-- Go's `docker.Build`. -/
def Build (w : World) (tag dockerfile dir : String) (buildArgs : List String) : Result :=
  Cmd w (buildArgv tag dockerfile dir buildArgs)

/-- Go's `docker.RunInteractiveAndRemove`. -/
def RunInteractiveAndRemove (w : World) (args : List String) : Result :=
  let argv := ["run", "--rm", "-it"] ++ args
  ⟨w.runInteractive "docker" argv, [Event.interactive "docker" argv]⟩

/-- Go's `docker.RunD2VM`. -/
def RunD2VM (w : World) (image version in_ out cmd : String) (args : List String) : Result :=
  match w.getwd with
  | .error e => ⟨some e, []⟩
  | .ok pwd =>
    let in_ := if in_ = "" then pwd else in_
    let out := if out = "" then pwd else out
    let image := if image = "" then "linkacloud/d2vm" else image
    let version := if version = "" then "latest" else version
    let a := [
      "--privileged",
      "-e",
      "SUDO_UID=" ++ fmtInt w.getuid,
      "-v",
      dockerSocket w ++ ":/var/run/docker.sock",
      "-v",
      in_ ++ ":/in",
      "-v",
      out ++ ":/out",
      "-w",
      "/d2vm",
      image ++ ":" ++ version,
      cmd]
    RunInteractiveAndRemove w (a ++ args)

end D2vm

namespace D2vm

/-! ## `cmd/d2vm/build.go` -/

/-- The package-level variables `RunE` reads: the ones bound to flags, and `tag`, which is
initialised once, when the package is loaded. -/
structure Vars where
  file : String
  output : String
  size : String
  password : String
  force : Bool
  cmdLineExtra : String
  networkManager : String
  raw : Bool
  buildArgs : List String
  tag : String

/-- The initialiser of the package variable `tag`, given the string of the UUID that
`uuid.New()` returned. -/
def newTag (uuid : String) : String := "d2vm-" ++ uuid

/-- What one call of `RunE` returns and did, with the value it leaves in the package
variable `file`. -/
structure Outcome where
  err : Option Err
  trace : List Event
  file : String

/-- The assignment `if file == "" { file = filepath.Join(args[0], "Dockerfile") }`, made in
both branches of `RunE`. -/
def defaultFile (file arg0 : String) : String :=
  if file = "" then Join [arg0, "Dockerfile"] else file

/-- The body of the loop over `dargs` for one token `v`: the `switch v` with its three cases
in source order. -/
def rewriteArg (file output arg0 in_ dockerFileAbsPath v : String) : Except Err String :=
  if v = file then
    match Rel in_ dockerFileAbsPath with
    | .error e => .error ("failed to construct Dockerfile container paths: " ++ e)
    | .ok rel => .ok (Join ["/in", rel])
  else if v = output then .ok (Join ["/out", Base output])
  else if v = arg0 then .ok "/in"
  else .ok v

/-- The loop `for i, v := range dargs`: the content of `dargs` when the loop ends, or the
error it returns with. -/
def rewriteArgs (file output arg0 in_ dockerFileAbsPath : String) :
    List String → Except Err (List String)
  | [] => .ok []
  | v :: rest =>
    match rewriteArg file output arg0 in_ dockerFileAbsPath v with
    | .error e => .error e
    | .ok v1 =>
      match rewriteArgs file output arg0 in_ dockerFileAbsPath rest with
      | .error e => .error e
      | .ok rest1 => .ok (v1 :: rest1)

/-- The test `runtime.GOOS != "linux" || !isRoot()`: the command cannot do the work itself
and re-executes inside the helper container. -/
def needsHelper (w : World) : Bool := w.goos != "linux" || !w.isRoot

/-- The call of `d2vm.Convert` that `RunE` makes. -/
def convertCall (v : Vars) (size : Int) : ConvertCall :=
  { tag := v.tag, size := size, password := v.password, output := v.output,
    cmdLineExtra := v.cmdLineExtra, networkManager := v.networkManager, raw := v.raw }

/-- The first branch of `RunE`: translate the paths and hand over to the helper. -/
def runHelper (w : World) (v : Vars) (osArgs : List String) (arg0 : String) : Outcome :=
  match Abs w.getwd arg0 with
  | .error e => ⟨some e, [], v.file⟩
  | .ok ctxAbsPath =>
    let file := defaultFile v.file arg0
    match Abs w.getwd file with
    | .error e => ⟨some e, [], file⟩
    | .ok dockerFileAbsPath =>
      if !HasPrefix dockerFileAbsPath ctxAbsPath then
        ⟨some "Dockerfile must be in the context directory path", [], file⟩
      else
        match Abs w.getwd v.output with
        | .error e => ⟨some e, [], file⟩
        | .ok outputPath =>
          let in_ := ctxAbsPath
          let out := Dir outputPath
          match rewriteArgs file v.output arg0 in_ dockerFileAbsPath (osArgs.drop 2) with
          | .error e => ⟨some e, [], file⟩
          | .ok dargs =>
            let r := RunD2VM w w.image w.version in_ out "build" dargs
            ⟨r.err, r.trace, file⟩

/-- The rest of `RunE`: check the output, build, convert, give the file back to the
invoking user. -/
def runNative (w : World) (v : Vars) (arg0 : String) : Outcome :=
  match w.parseSize v.size with
  | .error e => ⟨some e, [], v.file⟩
  | .ok size =>
    let file := defaultFile v.file arg0
    if w.stat v.output ≠ StatResult.notExist ∧ v.force = false then
      ⟨some (v.output ++ " already exists"), [Event.stat v.output], file⟩
    else
      let b := Build w v.tag file arg0 v.buildArgs
      match b.err with
      | some e => ⟨some e, Event.stat v.output :: b.trace, file⟩
      | none =>
        let c := convertCall v size
        match w.convert c with
        | some e => ⟨some e, Event.stat v.output :: b.trace ++ [Event.convert c], file⟩
        | none =>
          match w.sudoUser with
          | none => ⟨none, Event.stat v.output :: b.trace ++ [Event.convert c], file⟩
          | some uid =>
            ⟨w.chown v.output uid uid,
              Event.stat v.output :: b.trace ++ [Event.convert c, Event.chown v.output uid uid],
              file⟩

/-- The function `RunE` of `buildCmd`, called with `args = [arg0]` (the command takes
exactly one argument) while `os.Args` is `osArgs`. -/
def RunE (w : World) (v : Vars) (osArgs : List String) (arg0 : String) : Outcome :=
  if needsHelper w then runHelper w v osArgs arg0 else runNative w v arg0

/-- The package variables after a call of `RunE`: only `file` is ever assigned. -/
def varsAfter (v : Vars) (o : Outcome) : Vars := { v with file := o.file }

end D2vm

namespace D2vm

/-! ## Vocabulary of the specification -/

/-- The stages of the pipeline, as the specification names them. -/
inductive Stage
  | outputCheck
  | build
  | convert
  | ownershipFix
  | helperLaunch
deriving DecidableEq, Repr

/-- The stage a step belongs to. `RunE` runs `docker` through `exec.Run` only to build. -/
def Event.stage : Event → Stage
  | .stat _ => .outputCheck
  | .run _ _ => .build
  | .convert _ => .convert
  | .chown _ _ _ => .ownershipFix
  | .interactive _ _ => .helperLaunch

/-- The error a step ended with, as `RunE` judges it: the answer of `os.Stat` is an error
of the output check when the path is not reported missing and `force` is off; every other
step fails when the call returns an error. -/
def stepError (w : World) (v : Vars) : Event → Option Err
  | .stat p =>
    if w.stat p ≠ StatResult.notExist ∧ v.force = false then some (p ++ " already exists")
    else none
  | .run name args => w.run name args
  | .interactive name args => w.runInteractive name args
  | .convert c => w.convert c
  | .chown p uid gid => w.chown p uid gid

/-- The tag a step is given: the argument after `image build -t` of a docker build, the
tag of a conversion. -/
def Event.tag? : Event → Option String
  | .run _ args => if args.take 3 = ["image", "build", "-t"] then args[3]? else none
  | .convert c => some c.tag
  | _ => none

/-- The calls of `os.Chown` among the steps: path, uid, gid. -/
def chownCalls (trace : List Event) : List (String × Int × Int) :=
  trace.filterMap fun e =>
    match e with
    | .chown p uid gid => some (p, uid, gid)
    | _ => none

/-- The specification's nesting relation, on the elements of two resolved absolute paths:
`file` is `dir` followed by further path components. -/
def isPathDescendant (file dir : String) : Bool :=
  (pathElems dir.data).isPrefixOf (pathElems file.data)
    && decide ((pathElems dir.data).length < (pathElems file.data).length)

/-- The token the loop over `dargs` leaves in place of `v`, when `Rel` gave `rel`. -/
def translated (file output arg0 rel v : String) : String :=
  if v = file then Join ["/in", rel]
  else if v = output then Join ["/out", Base output]
  else if v = arg0 then "/in"
  else v

/-! ## Hosts and flag values used in the examples -/

/-- A Linux host on which the command runs as root, started through `sudo` by uid 1000 in
`/home/u`. The output `./vm.raw` exists already, nothing else does; only the size `10G` is
accepted; every external tool succeeds. -/
def nativeHost : World :=
  { goos := "linux", isRoot := true, getwd := .ok "/home/u", getuid := 0,
    image := "linkacloud/d2vm", version := "latest",
    parseSize := (fun s => if s = "10G" then .ok 10737418240 else .error ("invalid size: " ++ s)),
    sudoUser := some 1000,
    stat := (fun p => if p = "./vm.raw" then .found else .notExist),
    run := (fun _ _ => none), runInteractive := (fun _ _ => none),
    convert := (fun _ => none), chown := (fun _ _ _ => none) }

/-- The same host for the unprivileged user 1000: the command needs the helper. -/
def helperHost : World := { nativeHost with isRoot := false, getuid := 1000, sudoUser := none }

/-- The package variables after parsing `-o ./vm.qcow2` and nothing else, in a process
whose UUID is `3f0c`. -/
def plainVars : Vars :=
  { file := "", output := "./vm.qcow2", size := "10G", password := "", force := false,
    cmdLineExtra := "", networkManager := "", raw := false, buildArgs := [],
    tag := newTag "3f0c" }

/-- An element `Clean` keeps and writes back: not empty, not `.`, without a separator. -/
def Proper (w : Elem) : Prop := w ≠ [] ∧ w ≠ ['.'] ∧ '/' ∉ w

instance (w : Elem) : Decidable (Proper w) := by
  unfold Proper
  exact inferInstance

/-- Whether a container path lies in the mount `/in`. -/
def underIn (p : String) : Bool := p == "/in" || HasPrefix p "/in/"

end D2vm

namespace D2vm

/-! ## Lemmas on paths -/

/-- The model against examples from the documentation and the tests of Go's `path/filepath`. -/
theorem filepath_examples :
    Clean "" = "." ∧ Clean "abc/" = "abc" ∧ Clean "abc//def//ghi" = "abc/def/ghi"
      ∧ Clean "abc/./def" = "abc/def" ∧ Clean "abc/def/ghi/../jkl" = "abc/def/jkl"
      ∧ Clean "abc/def/../../.." = ".." ∧ Clean "/abc/def/../../.." = "/"
      ∧ Clean "abc/def/../../../ghi/jkl/../../../mno" = "../../mno"
      ∧ Clean "/../abc" = "/abc" ∧ Clean "abc/../../././../def" = "../../def"
      ∧ Join ["a", "b"] = "a/b" ∧ Join ["a", ""] = "a" ∧ Join ["", "b"] = "b"
      ∧ Join ["", ""] = "" ∧ Join ["/", "a"] = "/a" ∧ Join ["a/", "b"] = "a/b"
      ∧ Join ["a", "../b"] = "b"
      ∧ Base "" = "." ∧ Base "/" = "/" ∧ Base "a/b/" = "b" ∧ Base "./vm.qcow2" = "vm.qcow2"
      ∧ Dir "" = "." ∧ Dir "/a/b" = "/a" ∧ Dir "a/b/" = "a/b" ∧ Dir "vm.raw" = "."
      ∧ Dir "/vm.raw" = "/"
      ∧ Rel "a/b" "a/b/c/d" = .ok "c/d" ∧ Rel "/a/b/c" "/a/c/d" = .ok "../../c/d"
      ∧ Rel "/ab/cd" "/ab/cde" = .ok "../cde" ∧ Rel "/a/b/c/d/" "/a/b/" = .ok "../.."
      ∧ Rel "/a/b" "/a/b/." = .ok "." ∧ Rel "." "a/b" = .ok "a/b" ∧ Rel "/" "/a" = .ok "a"
      ∧ Abs (.ok "/home/u") "./vm.qcow2" = .ok "/home/u/vm.qcow2"
      ∧ Abs (.ok "/home/u") "/x/../y" = .ok "/y"
      ∧ Abs (.error "getwd: no such file or directory") "app"
          = .error "getwd: no such file or directory" := by
  decide


theorem splitSep_ne_nil (p : List Char) : splitSep p ≠ [] := by
  cases p with
  | nil => simp [splitSep]
  | cons c cs =>
    unfold splitSep
    split_ifs
    · simp
    · split <;> simp

theorem splitSep_cons_sep (p : List Char) : splitSep ('/' :: p) = [] :: splitSep p := by
  simp [splitSep]

theorem splitSep_cons_other (c : Char) (p : List Char) (hc : c ≠ '/') :
    ∃ w ws, splitSep p = w :: ws ∧ splitSep (c :: p) = (c :: w) :: ws := by
  cases h : splitSep p with
  | nil => exact absurd h (splitSep_ne_nil p)
  | cons w ws =>
    refine ⟨w, ws, rfl, ?_⟩
    simp [splitSep, hc, h]

theorem splitSep_append_sep (a b : List Char) :
    splitSep (a ++ '/' :: b) = splitSep a ++ splitSep b := by
  induction a with
  | nil => simp [splitSep]
  | cons c a ih =>
    by_cases hc : c = '/'
    · subst hc
      simp only [List.cons_append, splitSep_cons_sep, ih]
    · obtain ⟨w, ws, h1, h2⟩ := splitSep_cons_other c a hc
      obtain ⟨w1, ws1, h3, h4⟩ := splitSep_cons_other c (a ++ '/' :: b) hc
      rw [List.cons_append, h4, h2]
      rw [ih, h1] at h3
      simp only [List.cons_append, List.cons.injEq] at h3
      obtain ⟨rfl, rfl⟩ := h3
      rfl

theorem splitSep_of_no_sep (w : List Char) (hw : '/' ∉ w) : splitSep w = [w] := by
  induction w with
  | nil => rfl
  | cons c w ih =>
    have hc : c ≠ '/' := fun h => hw (by simp [h])
    have hw1 : '/' ∉ w := fun h => hw (by simp [h])
    obtain ⟨x, xs, h1, h2⟩ := splitSep_cons_other c w hc
    rw [ih hw1] at h1
    simp only [List.cons.injEq] at h1
    obtain ⟨rfl, rfl⟩ := h1
    exact h2

theorem no_sep_of_mem_splitSep (p : List Char) : ∀ w ∈ splitSep p, '/' ∉ w := by
  induction p with
  | nil => simp [splitSep]
  | cons c p ih =>
    by_cases hc : c = '/'
    · subst hc
      rw [splitSep_cons_sep]
      intro w hw
      rcases List.mem_cons.1 hw with rfl | hw
      · simp
      · exact ih w hw
    · obtain ⟨x, xs, h1, h2⟩ := splitSep_cons_other c p hc
      rw [h2]
      intro w hw
      rcases List.mem_cons.1 hw with rfl | hw
      · have hx := ih x (by rw [h1]; simp)
        intro h
        rcases List.mem_cons.1 h with h | h
        · exact hc h.symm
        · exact hx h
      · exact ih w (by rw [h1]; simp [hw])

theorem joinSep_cons_cons (w x : Elem) (ws : List Elem) :
    joinSep (w :: x :: ws) = w ++ '/' :: joinSep (x :: ws) := rfl

theorem splitSep_joinSep (ws : List Elem) (hne : ws ≠ []) (hws : ∀ w ∈ ws, '/' ∉ w) :
    splitSep (joinSep ws) = ws := by
  induction ws with
  | nil => exact absurd rfl hne
  | cons w ws ih =>
    cases ws with
    | nil => exact splitSep_of_no_sep w (hws w (by simp))
    | cons x xs =>
      rw [joinSep_cons_cons, splitSep_append_sep, splitSep_of_no_sep w (hws w (by simp)),
        ih (by simp) (fun y hy => hws y (by simp [hy]))]
      rfl

theorem pathElems_eq_filter (p : List Char) :
    pathElems p = (splitSep p).filter fun w => !(w == [] || w == ['.']) := rfl

theorem proper_of_mem_pathElems (p : List Char) : ∀ w ∈ pathElems p, Proper w := by
  intro w hw
  rw [pathElems_eq_filter, List.mem_filter] at hw
  obtain ⟨hm, hf⟩ := hw
  simp only [Bool.not_eq_true', Bool.or_eq_false_iff, beq_eq_false_iff_ne, ne_eq] at hf
  exact ⟨hf.1, hf.2, no_sep_of_mem_splitSep p w hm⟩

theorem pathElems_cons_sep (p : List Char) : pathElems ('/' :: p) = pathElems p := by
  simp [pathElems, splitSep_cons_sep]

theorem pathElems_append_sep (a b : List Char) :
    pathElems (a ++ '/' :: b) = pathElems a ++ pathElems b := by
  simp [pathElems, splitSep_append_sep]

theorem pathElems_joinSep (ws : List Elem) (hws : ∀ w ∈ ws, Proper w) :
    pathElems (joinSep ws) = ws := by
  cases ws with
  | nil => rfl
  | cons w ws =>
    rw [pathElems_eq_filter, splitSep_joinSep _ (by simp) (fun y hy => (hws y hy).2.2)]
    rw [List.filter_eq_self]
    intro y hy
    have h := hws y hy
    simp [h.1, h.2.1]

theorem dotdot_proper : Proper dotdot := by
  refine ⟨by decide, by decide, by decide⟩

theorem cleanElems_eq (rooted : Bool) (es : List Elem) :
    cleanElems rooted es = (es.foldl (cleanStep rooted) []).reverse := rfl

theorem cleanStep_of_ne (rooted : Bool) (stk : List Elem) (e : Elem) (he : e ≠ dotdot) :
    cleanStep rooted stk e = e :: stk := by
  simp [cleanStep, he]

theorem cleanStep_pop (rooted : Bool) (top : Elem) (stk : List Elem) (ht : top ≠ dotdot) :
    cleanStep rooted (top :: stk) dotdot = stk := by
  simp [cleanStep, ht]

theorem mem_cleanStep (rooted : Bool) (stk : List Elem) (e x : Elem)
    (hx : x ∈ cleanStep rooted stk e) : x ∈ stk ∨ x = e := by
  by_cases he : e = dotdot
  · subst he
    cases stk with
    | nil =>
      cases rooted <;> simp [cleanStep] at hx ⊢
      exact hx
    | cons top rest =>
      by_cases ht : top = dotdot
      · cases rooted <;> simp [cleanStep, ht] at hx ⊢ <;> tauto
      · rw [cleanStep_pop _ _ _ ht] at hx
        exact Or.inl (List.mem_cons_of_mem _ hx)
  · rw [cleanStep_of_ne _ _ _ he] at hx
    rcases List.mem_cons.1 hx with h | h
    · exact Or.inr h
    · exact Or.inl h

theorem mem_foldl_cleanStep (rooted : Bool) (es : List Elem) (stk : List Elem) (x : Elem)
    (hx : x ∈ es.foldl (cleanStep rooted) stk) : x ∈ stk ∨ x ∈ es := by
  induction es generalizing stk with
  | nil => exact Or.inl hx
  | cons e es ih =>
    rcases ih _ hx with h | h
    · rcases mem_cleanStep rooted stk e x h with h | h
      · exact Or.inl h
      · exact Or.inr (by simp [h])
    · exact Or.inr (List.mem_cons_of_mem _ h)

theorem mem_cleanElems (rooted : Bool) (es : List Elem) (x : Elem)
    (hx : x ∈ cleanElems rooted es) : x ∈ es := by
  rw [cleanElems_eq, List.mem_reverse] at hx
  rcases mem_foldl_cleanStep rooted es [] x hx with h | h
  · simp at h
  · exact h

theorem cleanStep_rooted_no_dotdot (stk : List Elem) (e : Elem) (hs : dotdot ∉ stk) :
    dotdot ∉ cleanStep true stk e := by
  by_cases he : e = dotdot
  · subst he
    cases stk with
    | nil => simp [cleanStep]
    | cons top rest =>
      by_cases ht : top = dotdot
      · exact absurd (by simp [ht]) hs
      · rw [cleanStep_pop _ _ _ ht]
        exact fun h => hs (List.mem_cons_of_mem _ h)
  · rw [cleanStep_of_ne _ _ _ he]
    intro h
    rcases List.mem_cons.1 h with h | h
    · exact he h.symm
    · exact hs h

theorem foldl_rooted_no_dotdot (es : List Elem) (stk : List Elem) (hs : dotdot ∉ stk) :
    dotdot ∉ es.foldl (cleanStep true) stk := by
  induction es generalizing stk with
  | nil => exact hs
  | cons e es ih => exact ih _ (cleanStep_rooted_no_dotdot stk e hs)

theorem cleanElems_rooted_no_dotdot (es : List Elem) : dotdot ∉ cleanElems true es := by
  rw [cleanElems_eq, List.mem_reverse]
  exact foldl_rooted_no_dotdot es [] (by simp)

theorem foldl_cleanStep_of_no_dotdot (rooted : Bool) (es stk : List Elem) (hes : dotdot ∉ es) :
    es.foldl (cleanStep rooted) stk = es.reverse ++ stk := by
  induction es generalizing stk with
  | nil => rfl
  | cons e es ih =>
    have he : e ≠ dotdot := fun h => hes (by simp [h])
    have hes1 : dotdot ∉ es := fun h => hes (List.mem_cons_of_mem _ h)
    simp [List.foldl_cons, cleanStep_of_ne rooted stk e he, ih _ hes1]

theorem cleanElems_of_no_dotdot (rooted : Bool) (es : List Elem) (hes : dotdot ∉ es) :
    cleanElems rooted es = es := by
  simp [cleanElems_eq, foldl_cleanStep_of_no_dotdot rooted es [] hes]

theorem cleanElems_append_singleton (rooted : Bool) (es : List Elem) (d : Elem)
    (hd : d ≠ dotdot) : cleanElems rooted (es ++ [d]) = cleanElems rooted es ++ [d] := by
  simp [cleanElems_eq, List.foldl_append, cleanStep_of_ne rooted _ d hd]

/-- Cleaning a relative path first does not change what a later `Clean` makes of it, whatever
precedes it. -/
theorem foldl_cleanStep_cleanElems (rooted : Bool) (stk es : List Elem) :
    (cleanElems false es).foldl (cleanStep rooted) stk = es.foldl (cleanStep rooted) stk := by
  induction es using List.reverseRecOn with
  | nil => rfl
  | append_singleton es x ih =>
    rw [cleanElems_eq, List.foldl_append, List.foldl_cons, List.foldl_nil] at *
    rw [List.foldl_append, List.foldl_cons, List.foldl_nil, ← ih]
    by_cases hx : x = dotdot
    · subst hx
      cases hR : es.foldl (cleanStep false) [] with
      | nil => simp [cleanStep]
      | cons top rest =>
        by_cases ht : top = dotdot
        · subst ht
          simp [cleanStep, List.foldl_append]
        · rw [cleanStep_pop false top rest ht]
          simp only [List.reverse_cons, List.foldl_append, List.foldl_cons, List.foldl_nil]
          rw [cleanStep_of_ne rooted _ top ht, cleanStep_pop rooted top _ ht]
    · rw [cleanStep_of_ne false _ x hx]
      simp [List.foldl_append]

theorem cleanElems_idem (es : List Elem) :
    cleanElems false (cleanElems false es) = cleanElems false es := by
  rw [cleanElems_eq, foldl_cleanStep_cleanElems false [] es]
  rfl

theorem cleanElems_rooted_append_clean (ws es : List Elem) :
    cleanElems true (ws ++ cleanElems false es) = cleanElems true (ws ++ es) := by
  rw [cleanElems_eq true, cleanElems_eq true (ws ++ es), List.foldl_append, List.foldl_append,
    foldl_cleanStep_cleanElems]

theorem joinSep_append_singleton (xs : List Elem) (d : Elem) :
    joinSep (xs ++ [d]) = if xs = [] then d else joinSep xs ++ '/' :: d := by
  induction xs with
  | nil => rfl
  | cons x xs ih =>
    cases xs with
    | nil => rfl
    | cons y ys =>
      have h : joinSep (x :: y :: ys ++ [d]) = x ++ '/' :: joinSep (y :: ys ++ [d]) := rfl
      rw [h, ih]
      simp [joinSep_cons_cons]

theorem joinSep_prefix_append_singleton (xs : List Elem) (d : Elem) :
    joinSep xs <+: joinSep (xs ++ [d]) := by
  rw [joinSep_append_singleton]
  split_ifs with h
  · subst h
    exact List.nil_prefix
  · exact List.prefix_append _ _

theorem joinSep_append_singleton_ne_nil (xs : List Elem) (d : Elem) (hd : d ≠ []) :
    joinSep (xs ++ [d]) ≠ [] := by
  rw [joinSep_append_singleton]
  split_ifs with h
  · exact hd
  · simp

theorem suffix_joinSep_append_singleton (xs : List Elem) (d : Elem) :
    d <:+ joinSep (xs ++ [d]) := by
  rw [joinSep_append_singleton]
  split_ifs with h
  · exact List.suffix_refl d
  · exact ⟨joinSep xs ++ ['/'], by simp⟩

theorem head?_joinSep_ne_sep (xs : List Elem) (hxs : ∀ x ∈ xs, Proper x) :
    (joinSep xs).head? ≠ some '/' := by
  cases xs with
  | nil => simp [joinSep]
  | cons x xs =>
    have hx := hxs x (by simp)
    cases x with
    | nil => exact absurd rfl hx.1
    | cons c cs =>
      have hc : c ≠ '/' := fun h => hx.2.2 (by simp [h])
      cases xs with
      | nil => simpa [joinSep] using hc
      | cons y ys => simpa [joinSep_cons_cons] using hc

theorem cleanChars_rooted (p : List Char) :
    cleanChars ('/' :: p) = '/' :: joinSep (cleanElems true (pathElems p)) := by
  simp [cleanChars, pathElems_cons_sep]

theorem cleanChars_relative (p : List Char) (hp : p.head? ≠ some '/')
    (hne : joinSep (cleanElems false (pathElems p)) ≠ []) :
    cleanChars p = joinSep (cleanElems false (pathElems p)) := by
  cases p with
  | nil => exact absurd rfl hne
  | cons c cs =>
    have hc : c ≠ '/' := by simpa using hp
    have hb : (c == '/') = false := by simpa using hc
    simp only [cleanChars, hb, Bool.false_eq_true, if_false, hne]

theorem proper_cleanElems (rooted : Bool) (p : List Char) :
    ∀ x ∈ cleanElems rooted (pathElems p), Proper x :=
  fun x hx => proper_of_mem_pathElems p x (mem_cleanElems rooted _ x hx)

/-- A rooted path made of proper elements other than `..` is clean already. -/
theorem cleanChars_rooted_clean (es : List Elem) (hes : ∀ x ∈ es, Proper x)
    (hdd : dotdot ∉ es) : cleanChars ('/' :: joinSep es) = '/' :: joinSep es := by
  rw [cleanChars_rooted, pathElems_joinSep es hes, cleanElems_of_no_dotdot true es hdd]

/-- `Join(c, d)` for a rooted `c` and a file name `d`. -/
theorem joinChars_rooted (c d : List Char) (hd : Proper d) (hdd : d ≠ dotdot) :
    joinChars ['/' :: c, d] = '/' :: joinSep (cleanElems true (pathElems c) ++ [d]) := by
  have hpd : pathElems d = [d] := pathElems_joinSep [d] (by simpa using hd)
  have h : joinSep ['/' :: c, d] = '/' :: (c ++ '/' :: d) := rfl
  simp only [joinChars, List.cons_ne_nil, if_false, h, cleanChars_rooted, pathElems_append_sep, hpd,
    cleanElems_append_singleton true _ d hdd]

/-- `Join(c, d)` for a relative `c`, empty or not, and a file name `d`. -/
theorem joinChars_relative (c d : List Char) (hc : c.head? ≠ some '/') (hd : Proper d)
    (hdd : d ≠ dotdot) :
    joinChars [c, d] = joinSep (cleanElems false (pathElems c) ++ [d]) := by
  have hpd : pathElems d = [d] := pathElems_joinSep [d] (by simpa using hd)
  have hd0 : d.head? ≠ some '/' := by
    have := head?_joinSep_ne_sep [d] (by simpa using hd)
    simpa [joinSep] using this
  by_cases hnil : c = []
  · subst hnil
    have h1 : joinChars [[], d] = cleanChars d := by
      simp [joinChars, hd.1, joinSep]
    have h2 : cleanElems false (pathElems d) = [d] := by
      rw [hpd]; exact cleanElems_of_no_dotdot false [d] (by simpa using Ne.symm hdd)
    rw [h1, cleanChars_relative d hd0 (by rw [h2]; simpa [joinSep] using hd.1), h2]
    rfl
  · have h : joinSep [c, d] = c ++ '/' :: d := rfl
    have hh : (c ++ '/' :: d).head? ≠ some '/' := by
      cases c with
      | nil => exact absurd rfl hnil
      | cons x xs => simpa using hc
    have he : cleanElems false (pathElems (c ++ '/' :: d))
        = cleanElems false (pathElems c) ++ [d] := by
      rw [pathElems_append_sep, hpd, cleanElems_append_singleton false _ d hdd]
    simp only [joinChars, hnil, if_false, h]
    rw [cleanChars_relative _ hh (by rw [he]; exact joinSep_append_singleton_ne_nil _ _ hd.1), he]


theorem dockerfile_proper : Proper "Dockerfile".data := by decide

theorem dockerfile_ne_dotdot : "Dockerfile".data ≠ dotdot := by decide

theorem Join_default_rooted (c : String) (c1 : List Char) (hc : c.data = '/' :: c1) :
    Join [c, "Dockerfile"] =
      ⟨'/' :: joinSep (cleanElems true (pathElems c1) ++ ["Dockerfile".data])⟩ := by
  simp only [Join, List.map_cons, List.map_nil, hc,
    joinChars_rooted c1 _ dockerfile_proper dockerfile_ne_dotdot]

theorem Join_default_relative (c : String) (hc : c.data.head? ≠ some '/') :
    Join [c, "Dockerfile"] =
      ⟨joinSep (cleanElems false (pathElems c.data) ++ ["Dockerfile".data])⟩ := by
  simp only [Join, List.map_cons, List.map_nil,
    joinChars_relative c.data _ hc dockerfile_proper dockerfile_ne_dotdot]

theorem isAbs_iff (p : String) : IsAbs p = true ↔ ∃ p1, p.data = '/' :: p1 := by
  unfold IsAbs
  cases h : p.data with
  | nil => simp
  | cons x xs => simp

theorem isAbs_false_iff (p : String) : IsAbs p = false ↔ p.data.head? ≠ some '/' := by
  unfold IsAbs
  simp

/-- What `Abs` returns when the working directory is rooted: a rooted path made of proper
elements, none of them `..`. -/
theorem Abs_rooted_wd (wd p : String) (hwd : IsAbs wd = true) :
    ∃ G : List Elem, (∀ g ∈ G, Proper g) ∧ dotdot ∉ G
      ∧ Abs (.ok wd) p = .ok ⟨'/' :: joinSep G⟩ := by
  obtain ⟨wd1, hwd1⟩ := (isAbs_iff wd).1 hwd
  by_cases hp : IsAbs p = true
  · obtain ⟨p1, hp1⟩ := (isAbs_iff p).1 hp
    refine ⟨cleanElems true (pathElems p1), proper_cleanElems true p1,
      cleanElems_rooted_no_dotdot _, ?_⟩
    simp only [Abs, hp, if_true, Clean, hp1, cleanChars_rooted]
  · refine ⟨cleanElems true (pathElems (wd1 ++ '/' :: p.data)), proper_cleanElems true _,
      cleanElems_rooted_no_dotdot _, ?_⟩
    have h : joinSep ['/' :: wd1, p.data] = '/' :: (wd1 ++ '/' :: p.data) := rfl
    simp only [Abs, hp, if_false, Join, List.map_cons, List.map_nil, hwd1, joinChars,
      List.cons_ne_nil, h, cleanChars_rooted]
    trivial

/-- The resolved context directory and the resolved default build file: the second is the
first with the element `Dockerfile` added. -/
theorem Abs_default (wd c : String) (hwd : IsAbs wd = true) :
    ∃ G : List Elem, (∀ g ∈ G, Proper g) ∧ dotdot ∉ G
      ∧ Abs (.ok wd) c = .ok ⟨'/' :: joinSep G⟩
      ∧ Abs (.ok wd) (Join [c, "Dockerfile"]) =
          .ok ⟨'/' :: joinSep (G ++ ["Dockerfile".data])⟩ := by
  obtain ⟨wd1, hwd1⟩ := (isAbs_iff wd).1 hwd
  by_cases hc : IsAbs c = true
  · obtain ⟨c1, hc1⟩ := (isAbs_iff c).1 hc
    have hG : ∀ g ∈ cleanElems true (pathElems c1) ++ ["Dockerfile".data], Proper g := by
      intro g hg
      rcases List.mem_append.1 hg with h | h
      · exact proper_cleanElems true c1 g h
      · rw [List.mem_singleton.1 h]; exact dockerfile_proper
    have hdd : dotdot ∉ cleanElems true (pathElems c1) ++ ["Dockerfile".data] := by
      intro h
      rcases List.mem_append.1 h with h | h
      · exact cleanElems_rooted_no_dotdot _ h
      · exact dockerfile_ne_dotdot (List.mem_singleton.1 h).symm
    refine ⟨cleanElems true (pathElems c1), proper_cleanElems true c1,
      cleanElems_rooted_no_dotdot _, ?_, ?_⟩
    · simp only [Abs, hc, if_true, Clean, hc1, cleanChars_rooted]
    · rw [Join_default_rooted c c1 hc1]
      have hj : IsAbs ⟨'/' :: joinSep (cleanElems true (pathElems c1) ++ ["Dockerfile".data])⟩
          = true := (isAbs_iff _).2 ⟨_, rfl⟩
      simp only [Abs, hj, if_true, Clean, cleanChars_rooted_clean _ hG hdd]
  · have hc0 : c.data.head? ≠ some '/' := (isAbs_false_iff c).1 (by simpa using hc)
    have hF : ∀ g ∈ cleanElems false (pathElems c.data) ++ ["Dockerfile".data], Proper g := by
      intro g hg
      rcases List.mem_append.1 hg with h | h
      · exact proper_cleanElems false c.data g h
      · rw [List.mem_singleton.1 h]; exact dockerfile_proper
    have hj : IsAbs ⟨joinSep (cleanElems false (pathElems c.data) ++ ["Dockerfile".data])⟩
        = false := (isAbs_false_iff _).2 (head?_joinSep_ne_sep _ hF)
    refine ⟨cleanElems true (pathElems wd1 ++ pathElems c.data), ?_,
      cleanElems_rooted_no_dotdot _, ?_, ?_⟩
    · rw [← pathElems_append_sep]; exact proper_cleanElems true _
    · have h : joinSep ['/' :: wd1, c.data] = '/' :: (wd1 ++ '/' :: c.data) := rfl
      simp only [Abs, hc, if_false, Join, List.map_cons, List.map_nil, hwd1, joinChars,
        List.cons_ne_nil, h, cleanChars_rooted, pathElems_append_sep]
      trivial
    · rw [Join_default_relative c hc0]
      have h : ∀ q : List Char, joinSep ['/' :: wd1, q] = '/' :: (wd1 ++ '/' :: q) :=
        fun _ => rfl
      simp only [Abs, hj, Bool.false_eq_true, if_false, Join, List.map_cons, List.map_nil, hwd1,
        joinChars, List.cons_ne_nil, h, cleanChars_rooted, pathElems_append_sep,
        pathElems_joinSep _ hF]
      rw [← List.append_assoc, cleanElems_append_singleton true _ _ dockerfile_ne_dotdot,
        cleanElems_rooted_append_clean]

theorem hasPrefix_iff (s pre : String) : HasPrefix s pre = true ↔ pre.data <+: s.data := by
  unfold HasPrefix
  exact List.isPrefixOf_iff_prefix

/-- The nesting check passes for the default build file. -/
theorem HasPrefix_default (wd c ctxAbsPath dockerFileAbsPath : String) (hwd : IsAbs wd = true)
    (hctx : Abs (.ok wd) c = .ok ctxAbsPath)
    (hfile : Abs (.ok wd) (Join [c, "Dockerfile"]) = .ok dockerFileAbsPath) :
    HasPrefix dockerFileAbsPath ctxAbsPath = true := by
  obtain ⟨G, -, -, h1, h2⟩ := Abs_default wd c hwd
  rw [h1] at hctx
  rw [h2] at hfile
  cases hctx
  cases hfile
  rw [hasPrefix_iff]
  exact (List.prefix_cons_inj _).2 (joinSep_prefix_append_singleton G _)

/-- The default build file is never the context argument itself. -/
theorem Join_default_ne_self (c : String) : c ≠ Join [c, "Dockerfile"] := by
  intro h
  have hlen : ∀ F : List Elem, F ≠ F ++ ["Dockerfile".data] := by
    intro F hF
    have := congrArg List.length hF
    simp at this
  by_cases hc : IsAbs c = true
  · obtain ⟨c1, hc1⟩ := (isAbs_iff c).1 hc
    rw [Join_default_rooted c c1 hc1] at h
    have hd := congrArg String.data h
    rw [hc1] at hd
    simp only [List.cons.injEq, true_and] at hd
    have hG : ∀ g ∈ cleanElems true (pathElems c1) ++ ["Dockerfile".data], Proper g := by
      intro g hg
      rcases List.mem_append.1 hg with h | h
      · exact proper_cleanElems true c1 g h
      · rw [List.mem_singleton.1 h]; exact dockerfile_proper
    have hp := congrArg pathElems hd
    rw [pathElems_joinSep _ hG] at hp
    have he := congrArg (cleanElems true) hp
    rw [cleanElems_append_singleton true _ _ dockerfile_ne_dotdot,
      cleanElems_of_no_dotdot true _ (cleanElems_rooted_no_dotdot _)] at he
    exact hlen _ he
  · have hc0 : c.data.head? ≠ some '/' := (isAbs_false_iff c).1 (by simpa using hc)
    rw [Join_default_relative c hc0] at h
    have hd := congrArg String.data h
    simp only at hd
    have hF : ∀ g ∈ cleanElems false (pathElems c.data) ++ ["Dockerfile".data], Proper g := by
      intro g hg
      rcases List.mem_append.1 hg with h | h
      · exact proper_cleanElems false c.data g h
      · rw [List.mem_singleton.1 h]; exact dockerfile_proper
    have hp := congrArg pathElems hd
    rw [pathElems_joinSep _ hF] at hp
    have he := congrArg (cleanElems false) hp
    rw [cleanElems_append_singleton false _ _ dockerfile_ne_dotdot, cleanElems_idem] at he
    exact hlen _ he

/-- The default build file ends with the characters of `Dockerfile`. -/
theorem Join_default_suffix (c : String) :
    "Dockerfile".data <:+ (Join [c, "Dockerfile"]).data := by
  by_cases hc : IsAbs c = true
  · obtain ⟨c1, hc1⟩ := (isAbs_iff c).1 hc
    rw [Join_default_rooted c c1 hc1]
    exact (suffix_joinSep_append_singleton _ _).trans (List.suffix_cons _ _)
  · have hc0 : c.data.head? ≠ some '/' := (isAbs_false_iff c).1 (by simpa using hc)
    rw [Join_default_relative c hc0]
    exact suffix_joinSep_append_singleton _ _

theorem relScan_cur (bs ts : List Elem) :
    (relScan bs ts).1 = [] ∨ (relScan bs ts).1 ∈ bs := by
  induction bs generalizing ts with
  | nil => exact Or.inl (by simp [relScan])
  | cons b bs ih =>
    cases ts with
    | nil => exact Or.inl (by simp [relScan])
    | cons t ts =>
      by_cases h : b = t
      · simp only [relScan, h, if_true]
        rcases ih ts with h1 | h1
        · exact Or.inl h1
        · exact Or.inr (List.mem_cons_of_mem _ h1)
      · simp [relScan, h]

theorem joinSep_eq_nil (es : List Elem) (hes : ∀ x ∈ es, Proper x) (h : joinSep es = []) :
    es = [] := by
  cases es with
  | nil => rfl
  | cons x xs =>
    exfalso
    have hx := (hes x (by simp)).1
    cases xs with
    | nil => exact hx h
    | cons y ys =>
      rw [joinSep_cons_cons] at h
      simp at h

theorem dotdot_not_mem_relElems (es : List Elem) (hes : ∀ x ∈ es, Proper x)
    (hdd : dotdot ∉ es) : dotdot ∉ relElems ('/' :: joinSep es) := by
  unfold relElems
  by_cases h : joinSep es = []
  · simp only [List.cons_ne_nil, if_false, h, if_true]
    decide
  · have hne : es ≠ [] := fun h1 => h (by rw [h1]; rfl)
    simp only [List.cons_ne_nil, if_false, List.cons.injEq, true_and, h, splitSep_cons_sep,
      splitSep_joinSep es hne (fun x hx => (hes x hx).2.2)]
    intro hm
    rcases List.mem_cons.1 hm with h1 | h1
    · exact absurd h1 (by decide)
    · exact hdd h1

/-- `Rel` succeeds on two rooted clean paths. -/
theorem relChars_rooted_clean (bs ts : List Elem) (hbs : ∀ x ∈ bs, Proper x)
    (hbd : dotdot ∉ bs) (hts : ∀ x ∈ ts, Proper x) (htd : dotdot ∉ ts) :
    ∃ r, relChars ('/' :: joinSep bs) ('/' :: joinSep ts) = some r := by
  unfold relChars
  simp only [cleanChars_rooted_clean bs hbs hbd, cleanChars_rooted_clean ts hts htd]
  by_cases h1 : '/' :: joinSep ts = '/' :: joinSep bs
  · exact ⟨_, by simp only [h1, if_true]; rfl⟩
  · have h2 : ('/' :: joinSep bs) ≠ ['.'] := by
      intro h
      have := (List.cons.inj h).1
      exact absurd this (by decide)
    have hcur := relScan_cur (relElems ('/' :: joinSep bs)) (relElems ('/' :: joinSep ts))
    have hne : (relScan (relElems ('/' :: joinSep bs)) (relElems ('/' :: joinSep ts))).1
        ≠ dotdot := by
      rcases hcur with h | h
      · rw [h]; decide
      · intro h4
        rw [h4] at h
        exact dotdot_not_mem_relElems bs hbs hbd h
    simp only [h1, if_false, h2, List.head?_cons, bne_self_eq_false, Bool.false_eq_true, hne]
    by_cases h5 : (relScan (relElems ('/' :: joinSep bs)) (relElems ('/' :: joinSep ts))).2.1 = []
    · exact ⟨_, by simp only [h5, ne_eq, not_true_eq_false, if_false]; rfl⟩
    · exact ⟨_, by simp only [h5, ne_eq, not_false_eq_true, if_true]; rfl⟩

theorem Rel_of_Abs (wd a b absA absB : String) (hwd : IsAbs wd = true)
    (ha : Abs (.ok wd) a = .ok absA) (hb : Abs (.ok wd) b = .ok absB) :
    ∃ rel, Rel absA absB = .ok rel := by
  obtain ⟨G1, hp1, hd1, h1⟩ := Abs_rooted_wd wd a hwd
  obtain ⟨G2, hp2, hd2, h2⟩ := Abs_rooted_wd wd b hwd
  rw [h1] at ha
  rw [h2] at hb
  cases ha
  cases hb
  obtain ⟨r, hr⟩ := relChars_rooted_clean G1 G2 hp1 hd1 hp2 hd2
  exact ⟨⟨r⟩, by simp only [Rel, hr]⟩

theorem joinSep_prefix_append (xs ys : List Elem) : joinSep xs <+: joinSep (xs ++ ys) := by
  induction ys using List.reverseRecOn with
  | nil => simp
  | append_singleton ys y ih =>
    rw [← List.append_assoc]
    exact ih.trans (joinSep_prefix_append_singleton _ _)

/-- For two resolved paths, a build file below the context directory begins with it: a pair
that fails the test on characters is not nested. -/
theorem not_descendant_of_not_hasPrefix (wd a b absA absB : String) (hwd : IsAbs wd = true)
    (ha : Abs (.ok wd) a = .ok absA) (hb : Abs (.ok wd) b = .ok absB)
    (hpre : HasPrefix absB absA = false) : isPathDescendant absB absA = false := by
  obtain ⟨G1, hp1, hd1, h1⟩ := Abs_rooted_wd wd a hwd
  obtain ⟨G2, hp2, hd2, h2⟩ := Abs_rooted_wd wd b hwd
  rw [h1] at ha
  rw [h2] at hb
  cases ha
  cases hb
  by_contra hdesc
  have hdesc1 : isPathDescendant ⟨'/' :: joinSep G2⟩ ⟨'/' :: joinSep G1⟩ = true := by
    simpa using hdesc
  simp only [isPathDescendant, pathElems_cons_sep, pathElems_joinSep G1 hp1,
    pathElems_joinSep G2 hp2, Bool.and_eq_true, List.isPrefixOf_iff_prefix] at hdesc1
  obtain ⟨R, hR⟩ := hdesc1.1
  have : HasPrefix ⟨'/' :: joinSep G2⟩ ⟨'/' :: joinSep G1⟩ = true := by
    rw [hasPrefix_iff, ← hR]
    exact (List.prefix_cons_inj _).2 (joinSep_prefix_append G1 R)
  rw [this] at hpre
  cases hpre

theorem relScan_append (xs rest : List Elem) : relScan xs (xs ++ rest) = ([], [], rest) := by
  induction xs with
  | nil => cases rest <;> rfl
  | cons x xs ih => simp [relScan, ih]

theorem relElems_rooted (es : List Elem) (hes : ∀ x ∈ es, Proper x) :
    relElems ('/' :: joinSep es) = [] :: es := by
  unfold relElems
  by_cases h : joinSep es = []
  · have := joinSep_eq_nil es hes h
    subst this
    simp [joinSep]
  · have hne : es ≠ [] := fun h1 => h (by rw [h1]; rfl)
    simp only [List.cons_ne_nil, if_false, List.cons.injEq, true_and, h, splitSep_cons_sep,
      splitSep_joinSep es hne (fun x hx => (hes x hx).2.2)]

theorem in_ne_dotdot : "in".data ≠ dotdot := by decide

/-- For a build file that is the context directory followed by the elements `rest`, `Rel`
gives those elements, or `.` when there are none. -/
theorem relChars_nested (es rest : List Elem) (hes : ∀ x ∈ es ++ rest, Proper x)
    (hdd : dotdot ∉ es ++ rest) :
    relChars ('/' :: joinSep es) ('/' :: joinSep (es ++ rest)) =
      some (if rest = [] then ['.'] else joinSep rest) := by
  have hes1 : ∀ x ∈ es, Proper x := fun x hx => hes x (List.mem_append_left _ hx)
  have hdd1 : dotdot ∉ es := fun h => hdd (List.mem_append_left _ h)
  unfold relChars
  simp only [cleanChars_rooted_clean es hes1 hdd1, cleanChars_rooted_clean _ hes hdd]
  by_cases hr : rest = []
  · subst hr
    simp
  · have h1 : ¬ ('/' :: joinSep (es ++ rest) = '/' :: joinSep es) := by
      intro h
      have hp := congrArg pathElems (List.cons.inj h).2
      rw [pathElems_joinSep _ hes, pathElems_joinSep _ hes1] at hp
      exact hr (by simpa using hp)
    have h2 : ('/' :: joinSep es) ≠ ['.'] := by
      intro h
      exact absurd (List.cons.inj h).1 (by decide)
    have h3 : (([] : Elem) = dotdot) = False := by
      simp [dotdot]
    simp only [h1, if_false, h2, List.head?_cons, bne_self_eq_false, Bool.false_eq_true,
      relElems_rooted es hes1, relElems_rooted _ hes, relScan, if_true, relScan_append, h3,
      ne_eq, not_true_eq_false, hr]

/-- The translation of a build file that lies in the context directory, or is the context
directory itself: `Rel` succeeds, the container path is `/in` or below `/in/`, and the
relative path leads from the context directory to the build file. -/
theorem translation_of_nested (wd a b ctxAbsPath dockerFileAbsPath : String)
    (hwd : IsAbs wd = true) (ha : Abs (.ok wd) a = .ok ctxAbsPath)
    (hb : Abs (.ok wd) b = .ok dockerFileAbsPath)
    (hnest : (pathElems ctxAbsPath.data).isPrefixOf (pathElems dockerFileAbsPath.data) = true) :
    ∃ rel, Rel ctxAbsPath dockerFileAbsPath = .ok rel
      ∧ underIn (Join ["/in", rel]) = true
      ∧ Join [ctxAbsPath, rel] = dockerFileAbsPath := by
  obtain ⟨G1, hp1, hd1, h1⟩ := Abs_rooted_wd wd a hwd
  obtain ⟨G2, hp2, hd2, h2⟩ := Abs_rooted_wd wd b hwd
  rw [h1] at ha
  rw [h2] at hb
  cases ha
  cases hb
  simp only [pathElems_cons_sep, pathElems_joinSep G1 hp1, pathElems_joinSep G2 hp2,
    List.isPrefixOf_iff_prefix] at hnest
  obtain ⟨R, rfl⟩ := hnest
  have hR : ∀ x ∈ R, Proper x := fun x hx => hp2 x (List.mem_append_right _ hx)
  have hRd : dotdot ∉ R := fun h => hd2 (List.mem_append_right _ h)
  have hrel := relChars_nested G1 R hp2 hd2
  refine ⟨⟨if R = [] then ['.'] else joinSep R⟩, by simp only [Rel, hrel], ?_, ?_⟩
  · by_cases hr : R = []
    · subst hr
      decide
    · have hj : joinSep ["/in".data, joinSep R] = '/' :: ("in".data ++ '/' :: joinSep R) := rfl
      have hin : pathElems "in".data = ["in".data] := by decide
      have hc : cleanElems true (["in".data] ++ R) = ["in".data] ++ R := by
        apply cleanElems_of_no_dotdot
        intro h
        rcases List.mem_append.1 h with h | h
        · exact in_ne_dotdot (List.mem_singleton.1 h).symm
        · exact hRd h
      have hJ : Join ["/in", ⟨joinSep R⟩] = ⟨'/' :: joinSep (["in".data] ++ R)⟩ := by
        simp only [Join, List.map_cons, List.map_nil, joinChars, hj, cleanChars_rooted,
          pathElems_append_sep, hin, pathElems_joinSep R hR, hc]
        simp
      simp only [hr, if_false, hJ, underIn, Bool.or_eq_true]
      right
      rw [hasPrefix_iff]
      cases R with
      | nil => exact absurd rfl hr
      | cons r rs => exact ⟨joinSep (r :: rs), rfl⟩
  · apply String.ext
    by_cases hr : R = []
    · subst hr
      have hj : joinSep ['/' :: joinSep G1, ['.']] = '/' :: (joinSep G1 ++ '/' :: ['.']) := rfl
      have hdot : pathElems ['.'] = [] := by decide
      simp only [Join, List.map_cons, List.map_nil, joinChars, List.cons_ne_nil, if_false, hj,
        cleanChars_rooted, pathElems_append_sep, pathElems_joinSep G1 hp1, hdot,
        List.append_nil, cleanElems_of_no_dotdot true G1 hd1, if_true]
    · have hj : joinSep ['/' :: joinSep G1, joinSep R]
          = '/' :: (joinSep G1 ++ '/' :: joinSep R) := rfl
      simp only [hr, if_false, Join, List.map_cons, List.map_nil, joinChars, List.cons_ne_nil,
        hj, cleanChars_rooted, pathElems_append_sep, pathElems_joinSep G1 hp1,
        pathElems_joinSep R hR, cleanElems_of_no_dotdot true _ hd2]

end D2vm

namespace D2vm

/-! ## `docker.Build` and `docker.RunD2VM` -/

theorem foldl_buildArg (buildArgs : List String) (acc : List String) :
    buildArgs.foldl (fun args v => args ++ ["--build-arg", v]) acc =
      acc ++ buildArgs.flatMap (fun v => ["--build-arg", v]) := by
  induction buildArgs generalizing acc with
  | nil => simp
  | cons b bs ih => simp [ih]

theorem length_flatMap_buildArg (buildArgs : List String) :
    (buildArgs.flatMap (fun v => ["--build-arg", v])).length = 2 * buildArgs.length := by
  induction buildArgs with
  | nil => rfl
  | cons b bs ih =>
    simp only [List.flatMap_cons, List.length_append, List.length_cons, List.length_nil, ih]
    omega

theorem buildArgv_eq (tag dockerfile dir : String) (buildArgs : List String) :
    buildArgv tag dockerfile dir buildArgs =
      ["image", "build", "-t", tag, "-f",
        if dockerfile = "" then Join [dir, "Dockerfile"] else dockerfile]
        ++ buildArgs.flatMap (fun v => ["--build-arg", v]) ++ [dir] := by
  simp only [buildArgv, foldl_buildArg]

/-- C10: `docker.Build` runs `docker` once, with the arguments `image build -t tag -f f`,
then one pair `--build-arg v` for each build argument in the order given, then `dir` as the
last argument, `7 + 2n` arguments in all, and returns what that run returns; `f` is the given
dockerfile, or `Join(dir, "Dockerfile")` when it is empty. With `dir = /home/u/app` and no
dockerfile the build uses `-f /home/u/app/Dockerfile`. -/
theorem C10_build_arguments (w : World) (tag dockerfile dir : String) (buildArgs : List String) :
    (Build w tag dockerfile dir buildArgs).trace =
        [Event.run "docker"
          (["image", "build", "-t", tag, "-f",
              if dockerfile = "" then Join [dir, "Dockerfile"] else dockerfile]
            ++ buildArgs.flatMap (fun v => ["--build-arg", v]) ++ [dir])]
      ∧ (Build w tag dockerfile dir buildArgs).err =
          w.run "docker" (buildArgv tag dockerfile dir buildArgs)
      ∧ (buildArgv tag dockerfile dir buildArgs).length = 7 + 2 * buildArgs.length
      ∧ (buildArgv tag dockerfile dir buildArgs).getLast? = some dir
      ∧ buildArgv tag "" "/home/u/app" buildArgs =
          ["image", "build", "-t", tag, "-f", "/home/u/app/Dockerfile"]
            ++ buildArgs.flatMap (fun v => ["--build-arg", v]) ++ ["/home/u/app"]
      ∧ defaultFile "" "/home/u/app" = "/home/u/app/Dockerfile" := by
  refine ⟨?_, rfl, ?_, ?_, ?_, by decide⟩
  · simp only [Build, Cmd, buildArgv_eq]
  · simp only [buildArgv_eq, List.length_append, length_flatMap_buildArg, List.length_cons,
      List.length_nil]
    omega
  · simp only [buildArgv_eq, List.getLast?_append, List.getLast?_singleton, Option.or_some]
  · rw [buildArgv_eq]
    have h : Join ["/home/u/app", "Dockerfile"] = "/home/u/app/Dockerfile" := by decide
    simp only [h, if_true]

/-- C6: when `os.Getwd` succeeds, `RunD2VM` runs `docker` once, interactively, with exactly
`run --rm -it --privileged -e SUDO_UID=<uid> -v <socket>:/var/run/docker.sock -v <in>:/in
-v <out>:/out -w /d2vm <image>:<version> cmd` followed by `args` in their order, and returns
what that run returns; an empty `in` or `out` is the working directory, an empty image
`linkacloud/d2vm`, an empty version `latest`. -/
theorem C6_helper_command_line (w : World) (image version in_ out cmd : String)
    (args : List String) (pwd : String) (hwd : w.getwd = .ok pwd) :
    (RunD2VM w image version in_ out cmd args).trace =
        [Event.interactive "docker"
          (["run", "--rm", "-it", "--privileged", "-e", "SUDO_UID=" ++ fmtInt w.getuid,
            "-v", dockerSocket w ++ ":/var/run/docker.sock",
            "-v", (if in_ = "" then pwd else in_) ++ ":/in",
            "-v", (if out = "" then pwd else out) ++ ":/out",
            "-w", "/d2vm",
            (if image = "" then "linkacloud/d2vm" else image) ++ ":"
              ++ (if version = "" then "latest" else version),
            cmd] ++ args)]
      ∧ (∀ name argv,
          Event.interactive name argv ∈ (RunD2VM w image version in_ out cmd args).trace →
          (RunD2VM w image version in_ out cmd args).err = w.runInteractive name argv
            ∧ "--rm" ∈ argv) := by
  simp only [RunD2VM, hwd, RunInteractiveAndRemove]
  refine ⟨by simp, ?_⟩
  intro name argv hmem
  simp only [List.mem_singleton, Event.interactive.injEq] at hmem
  obtain ⟨rfl, rfl⟩ := hmem
  exact ⟨rfl, by simp⟩

theorem C6_helper_command_line_witness :
    (RunD2VM helperHost "" "" "" "/home/u" "build" ["/in", "-o", "/out/vm.qcow2"]).trace =
        [Event.interactive "docker"
          (["run", "--rm", "-it", "--privileged", "-e", "SUDO_UID=" ++ fmtInt helperHost.getuid,
            "-v", dockerSocket helperHost ++ ":/var/run/docker.sock",
            "-v", (if "" = "" then "/home/u" else "") ++ ":/in",
            "-v", (if "/home/u" = "" then "/home/u" else "/home/u") ++ ":/out",
            "-w", "/d2vm",
            (if "" = "" then "linkacloud/d2vm" else "") ++ ":"
              ++ (if "" = "" then "latest" else ""),
            "build"] ++ ["/in", "-o", "/out/vm.qcow2"])]
      ∧ (RunD2VM helperHost "" "" "" "/home/u" "build" ["/in", "-o", "/out/vm.qcow2"]).trace =
        [Event.interactive "docker"
          ["run", "--rm", "-it", "--privileged", "-e", "SUDO_UID=1000",
            "-v", "/var/run/docker.sock:/var/run/docker.sock",
            "-v", "/home/u:/in", "-v", "/home/u:/out", "-w", "/d2vm",
            "linkacloud/d2vm:latest", "build", "/in", "-o", "/out/vm.qcow2"]] :=
  ⟨(C6_helper_command_line helperHost "" "" "" "/home/u" "build"
      ["/in", "-o", "/out/vm.qcow2"] "/home/u" rfl).1, by decide⟩

end D2vm

namespace D2vm

/-! ## The pipeline of `RunE` -/

theorem RunD2VM_cases (w : World) (image version in_ out cmd : String) (args : List String) :
    ((RunD2VM w image version in_ out cmd args).trace = []
        ∧ ∃ e, (RunD2VM w image version in_ out cmd args).err = some e)
      ∨ ∃ argv,
          (RunD2VM w image version in_ out cmd args).trace = [Event.interactive "docker" argv]
          ∧ (RunD2VM w image version in_ out cmd args).err = w.runInteractive "docker" argv := by
  unfold RunD2VM
  cases w.getwd with
  | error e => exact Or.inl ⟨rfl, _, rfl⟩
  | ok pwd => exact Or.inr ⟨_, rfl, rfl⟩

theorem runHelper_cases (w : World) (v : Vars) (osArgs : List String) (arg0 : String) :
    ((runHelper w v osArgs arg0).trace = []
        ∧ ∃ e, (runHelper w v osArgs arg0).err = some e)
      ∨ ∃ argv, (runHelper w v osArgs arg0).trace = [Event.interactive "docker" argv]
          ∧ (runHelper w v osArgs arg0).err = w.runInteractive "docker" argv := by
  unfold runHelper
  cases Abs w.getwd arg0 with
  | error e => exact Or.inl ⟨rfl, _, rfl⟩
  | ok ctxAbsPath =>
    dsimp only
    cases Abs w.getwd (defaultFile v.file arg0) with
    | error e => exact Or.inl ⟨rfl, _, rfl⟩
    | ok dockerFileAbsPath =>
      dsimp only
      cases !HasPrefix dockerFileAbsPath ctxAbsPath with
      | true => exact Or.inl ⟨rfl, _, rfl⟩
      | false =>
        simp only [Bool.false_eq_true, if_false]
        cases Abs w.getwd v.output with
        | error e => exact Or.inl ⟨rfl, _, rfl⟩
        | ok outputPath =>
          dsimp only
          cases rewriteArgs (defaultFile v.file arg0) v.output arg0 ctxAbsPath dockerFileAbsPath
              (List.drop 2 osArgs) with
          | error e => exact Or.inl ⟨rfl, _, rfl⟩
          | ok dargs => exact RunD2VM_cases _ _ _ _ _ _ _

/-- C9: the steps of a run are an initial part of the fixed sequence of its mode (output
check, build, convert, ownership fix in native mode; the one helper launch in helper mode),
every step before the last one succeeded, and the command returns what the last step it
performed ended with: no step follows a failed one, none is repeated, and the first failure
is the result. -/
theorem C9_failure_aborts_pipeline (w : World) (v : Vars) (osArgs : List String)
    (arg0 : String) :
    ((RunE w v osArgs arg0).trace.map Event.stage <+:
        (if needsHelper w then [Stage.helperLaunch]
          else [Stage.outputCheck, Stage.build, Stage.convert, Stage.ownershipFix]))
      ∧ (∀ e ∈ (RunE w v osArgs arg0).trace.dropLast, stepError w v e = none)
      ∧ (∀ e, (RunE w v osArgs arg0).trace.getLast? = some e →
          (RunE w v osArgs arg0).err = stepError w v e)
      ∧ ((RunE w v osArgs arg0).err = none →
          (RunE w v osArgs arg0).trace ≠ [] ∧
            ∀ e ∈ (RunE w v osArgs arg0).trace, stepError w v e = none) := by
  unfold RunE
  by_cases hm : needsHelper w = true
  · simp only [hm, if_true]
    rcases runHelper_cases w v osArgs arg0 with ⟨h, e, herr⟩ | ⟨argv, h, herr⟩
    · simp [h, herr]
    · simp [h, herr, stepError, Event.stage]
  · have hm1 : needsHelper w = false := by simpa using hm
    simp only [hm1, Bool.false_eq_true, if_false]
    unfold runNative
    cases w.parseSize v.size with
    | error e => simp
    | ok size =>
      dsimp only
      by_cases hg : w.stat v.output ≠ StatResult.notExist ∧ v.force = false
      · simp [hg, stepError, Event.stage]
      · simp only [hg, if_false, Build, Cmd]
        cases hb : w.run "docker" (buildArgv v.tag (defaultFile v.file arg0) arg0 v.buildArgs) with
        | some e => simp [hg, hb, stepError, Event.stage]
        | none =>
          dsimp only
          cases hc : w.convert (convertCall v size) with
          | some e => simp [hg, hb, hc, stepError, Event.stage]
          | none =>
            dsimp only
            cases hs : w.sudoUser with
            | none => simp [hg, hb, hc, stepError, Event.stage]
            | some uid => simp [hg, hb, hc, stepError, Event.stage]

theorem runNative_gate (w : World) (v : Vars) (arg0 : String) (size : Int)
    (hsize : w.parseSize v.size = .ok size)
    (hgate : w.stat v.output ≠ StatResult.notExist ∧ v.force = false) :
    runNative w v arg0 =
      ⟨some (v.output ++ " already exists"), [Event.stat v.output],
        defaultFile v.file arg0⟩ := by
  simp only [runNative, hsize, hgate, ne_eq, not_false_eq_true, and_self, if_true]

/-- C3 (amended): in native mode, when the size flag parses, the output path exists and
`force` is off, the command returns the error `<output> already exists` and its only step is
the `os.Stat` of the output: no docker build, no conversion, no chown. -/
theorem C3_existing_output_stops_build (w : World) (v : Vars) (osArgs : List String)
    (arg0 : String) (size : Int) (hn : needsHelper w = false)
    (hsize : w.parseSize v.size = .ok size) (hex : w.stat v.output = StatResult.found)
    (hforce : v.force = false) :
    (RunE w v osArgs arg0).err = some (v.output ++ " already exists")
      ∧ (RunE w v osArgs arg0).trace = [Event.stat v.output] := by
  have hgate : w.stat v.output ≠ StatResult.notExist ∧ v.force = false := by
    rw [hex]; exact ⟨by decide, hforce⟩
  simp only [RunE, hn, Bool.false_eq_true, if_false, runNative_gate w v arg0 size hsize hgate,
    and_self]

theorem C3_existing_output_stops_build_witness :
    (RunE nativeHost { plainVars with output := "./vm.raw" }
        ["d2vm", "build", "-o", "./vm.raw", "/home/u/app"] "/home/u/app").err
        = some ("./vm.raw" ++ " already exists")
      ∧ (RunE nativeHost { plainVars with output := "./vm.raw" }
        ["d2vm", "build", "-o", "./vm.raw", "/home/u/app"] "/home/u/app").trace
        = [Event.stat "./vm.raw"] :=
  C3_existing_output_stops_build nativeHost { plainVars with output := "./vm.raw" }
    ["d2vm", "build", "-o", "./vm.raw", "/home/u/app"] "/home/u/app" 10737418240
    (by decide) rfl (by decide) (by decide)

/-- C3 fails as stated: with `-s big -o ./vm.raw` on the native host the output exists and
`force` is off, yet the command returns the error of `parseSize`, not `./vm.raw already
exists`. -/
theorem C3_counterexample :
    needsHelper nativeHost = false
      ∧ nativeHost.stat "./vm.raw" = StatResult.found
      ∧ ({ plainVars with output := "./vm.raw", size := "big" } : Vars).force = false
      ∧ (RunE nativeHost { plainVars with output := "./vm.raw", size := "big" }
          ["d2vm", "build", "-s", "big", "-o", "./vm.raw", "/home/u/app"] "/home/u/app").err
          = some "invalid size: big"
      ∧ (RunE nativeHost { plainVars with output := "./vm.raw", size := "big" }
          ["d2vm", "build", "-s", "big", "-o", "./vm.raw", "/home/u/app"] "/home/u/app").err
          ≠ some "./vm.raw already exists" := by
  decide

/-- C8: in native mode, once a conversion has succeeded, the command calls `os.Chown`
exactly once, on the output path with the uid of the invoking user as uid and gid, and
returns what that call returns, when `sudoUser` gives a uid; it calls no chown and returns
success when `sudoUser` gives none. A chown is attempted only after a docker build and a
conversion that both succeeded. -/
theorem C8_ownership_after_conversion (w : World) (v : Vars) (osArgs : List String)
    (arg0 : String) (hn : needsHelper w = false) :
    (∀ c, Event.convert c ∈ (RunE w v osArgs arg0).trace → w.convert c = none →
        (∀ uid, w.sudoUser = some uid →
          chownCalls (RunE w v osArgs arg0).trace = [(v.output, uid, uid)]
            ∧ (RunE w v osArgs arg0).trace.getLast? = some (Event.chown v.output uid uid)
            ∧ (RunE w v osArgs arg0).err = w.chown v.output uid uid)
        ∧ (w.sudoUser = none →
          chownCalls (RunE w v osArgs arg0).trace = [] ∧ (RunE w v osArgs arg0).err = none))
      ∧ (chownCalls (RunE w v osArgs arg0).trace ≠ [] →
          (∃ args, Event.run "docker" args ∈ (RunE w v osArgs arg0).trace)
            ∧ (∃ c, Event.convert c ∈ (RunE w v osArgs arg0).trace)
            ∧ (∀ name args, Event.run name args ∈ (RunE w v osArgs arg0).trace →
                w.run name args = none)
            ∧ ∀ c, Event.convert c ∈ (RunE w v osArgs arg0).trace →
                w.convert c = none) := by
  simp only [RunE, hn, Bool.false_eq_true, if_false]
  unfold runNative
  cases w.parseSize v.size with
  | error e => simp [chownCalls]
  | ok size =>
    dsimp only
    by_cases hg : w.stat v.output ≠ StatResult.notExist ∧ v.force = false
    · simp [hg, chownCalls]
    · simp only [hg, if_false, Build, Cmd]
      cases hb : w.run "docker" (buildArgv v.tag (defaultFile v.file arg0) arg0 v.buildArgs) with
      | some e => simp [chownCalls]
      | none =>
        dsimp only
        cases hc : w.convert (convertCall v size) with
        | some e =>
          simp only [chownCalls]
          simp [hc]
        | none =>
          dsimp only
          cases hs : w.sudoUser with
          | none => simp [chownCalls]
          | some uid => simp [chownCalls, hb, hc]

theorem C8_ownership_after_conversion_witness :
    (∀ c, Event.convert c ∈ (RunE nativeHost plainVars
          ["d2vm", "build", "-o", "./vm.qcow2", "/home/u/app"] "/home/u/app").trace →
        nativeHost.convert c = none →
        (∀ uid, nativeHost.sudoUser = some uid →
          chownCalls (RunE nativeHost plainVars
              ["d2vm", "build", "-o", "./vm.qcow2", "/home/u/app"] "/home/u/app").trace
              = [(plainVars.output, uid, uid)]
            ∧ (RunE nativeHost plainVars
              ["d2vm", "build", "-o", "./vm.qcow2", "/home/u/app"] "/home/u/app").trace.getLast?
              = some (Event.chown plainVars.output uid uid)
            ∧ (RunE nativeHost plainVars
              ["d2vm", "build", "-o", "./vm.qcow2", "/home/u/app"] "/home/u/app").err
              = nativeHost.chown plainVars.output uid uid)
        ∧ (nativeHost.sudoUser = none →
          chownCalls (RunE nativeHost plainVars
              ["d2vm", "build", "-o", "./vm.qcow2", "/home/u/app"] "/home/u/app").trace = []
            ∧ (RunE nativeHost plainVars
              ["d2vm", "build", "-o", "./vm.qcow2", "/home/u/app"] "/home/u/app").err = none))
      ∧ chownCalls (RunE nativeHost plainVars
          ["d2vm", "build", "-o", "./vm.qcow2", "/home/u/app"] "/home/u/app").trace
          = [("./vm.qcow2", 1000, 1000)] :=
  ⟨(C8_ownership_after_conversion nativeHost plainVars
      ["d2vm", "build", "-o", "./vm.qcow2", "/home/u/app"] "/home/u/app" (by decide)).1,
    by decide⟩

/-! ## The tag -/

theorem tag_of_runNative (w : World) (v : Vars) (arg0 : String) :
    ∀ e ∈ (runNative w v arg0).trace, ∀ t, e.tag? = some t → t = v.tag := by
  unfold runNative
  cases w.parseSize v.size with
  | error e => simp
  | ok size =>
    dsimp only
    by_cases hg : w.stat v.output ≠ StatResult.notExist ∧ v.force = false
    · simp [hg, Event.tag?]
    · simp only [hg, if_false, Build, Cmd]
      have hb : ∀ t, (Event.run "docker"
          (buildArgv v.tag (defaultFile v.file arg0) arg0 v.buildArgs)).tag? = some t →
          t = v.tag := by
        intro t ht
        simp [Event.tag?, buildArgv_eq] at ht
        exact ht.symm
      cases w.run "docker" (buildArgv v.tag (defaultFile v.file arg0) arg0 v.buildArgs) with
      | some e =>
        simp only [List.mem_cons, List.mem_singleton, List.not_mem_nil, or_false]
        rintro e (rfl | rfl) t ht
        · simp [Event.tag?] at ht
        · exact hb t ht
      | none =>
        dsimp only
        have hc : ∀ t, (Event.convert (convertCall v size)).tag? = some t → t = v.tag := by
          intro t ht
          simp [Event.tag?, convertCall] at ht
          exact ht.symm
        cases w.convert (convertCall v size) with
        | some e =>
          simp only [List.cons_append, List.nil_append, List.mem_cons, List.mem_singleton,
            List.not_mem_nil, or_false]
          rintro e (rfl | rfl | rfl) t ht
          · simp [Event.tag?] at ht
          · exact hb t ht
          · exact hc t ht
        | none =>
          dsimp only
          cases w.sudoUser with
          | none =>
            simp only [List.cons_append, List.nil_append, List.mem_cons, List.mem_singleton,
              List.not_mem_nil, or_false]
            rintro e (rfl | rfl | rfl) t ht
            · simp [Event.tag?] at ht
            · exact hb t ht
            · exact hc t ht
          | some uid =>
            simp only [List.cons_append, List.nil_append, List.mem_cons, List.mem_singleton,
              List.not_mem_nil, or_false]
            rintro e (rfl | rfl | rfl | rfl) t ht
            · simp [Event.tag?] at ht
            · exact hb t ht
            · exact hc t ht
            · simp [Event.tag?] at ht

theorem tag_of_RunE (w : World) (v : Vars) (osArgs : List String) (arg0 : String) :
    ∀ e ∈ (RunE w v osArgs arg0).trace, ∀ t, e.tag? = some t → t = v.tag := by
  unfold RunE
  by_cases hm : needsHelper w = true
  · simp only [hm, if_true]
    rcases runHelper_cases w v osArgs arg0 with ⟨h, -⟩ | ⟨argv, h, -⟩
    · simp [h]
    · simp [h, Event.tag?]
  · simp only [hm, if_false]
    exact tag_of_runNative w v arg0

/-- C7 (amended): the tag is `d2vm-` followed by the UUID generated when the package is
loaded, once for the process. `RunE` never assigns it, so every tag that any two invocations
in one process give to `docker.Build` or to the converter is that same tag; two processes
with different UUIDs use different tags. -/
theorem C7_one_tag_per_process (uuid : String) (w1 w2 : World) (v1 v2 : Vars)
    (os1 os2 : List String) (a1 a2 : String)
    (h1 : v1.tag = newTag uuid) (h2 : v2.tag = (varsAfter v1 (RunE w1 v1 os1 a1)).tag) :
    (varsAfter v1 (RunE w1 v1 os1 a1)).tag = "d2vm-" ++ uuid
      ∧ (∀ e ∈ (RunE w1 v1 os1 a1).trace ++ (RunE w2 v2 os2 a2).trace,
          ∀ t, e.tag? = some t → t = "d2vm-" ++ uuid)
      ∧ (∀ other, other ≠ uuid → newTag other ≠ newTag uuid) := by
  have hv2 : v2.tag = newTag uuid := by rw [h2]; exact h1
  refine ⟨h1, ?_, ?_⟩
  · intro e he t ht
    rcases List.mem_append.1 he with he | he
    · exact (tag_of_RunE w1 v1 os1 a1 e he t ht).trans h1
    · exact (tag_of_RunE w2 v2 os2 a2 e he t ht).trans hv2
  · intro other hne h
    apply hne
    have hd := congrArg String.data h
    simp only [newTag, String.data_append, List.append_cancel_left_eq] at hd
    exact String.ext hd

theorem C7_one_tag_per_process_witness :
    (varsAfter plainVars (RunE nativeHost plainVars
        ["d2vm", "build", "-o", "./vm.qcow2", "/home/u/app"] "/home/u/app")).tag
        = "d2vm-" ++ "3f0c"
      ∧ (∀ e ∈ (RunE nativeHost plainVars
            ["d2vm", "build", "-o", "./vm.qcow2", "/home/u/app"] "/home/u/app").trace
          ++ (RunE nativeHost { plainVars with output := "./b.qcow2" }
            ["d2vm", "build", "-o", "./b.qcow2", "/home/u/web"] "/home/u/web").trace,
          ∀ t, e.tag? = some t → t = "d2vm-" ++ "3f0c")
      ∧ (∀ other, other ≠ "3f0c" → newTag other ≠ newTag "3f0c") :=
  C7_one_tag_per_process "3f0c" nativeHost nativeHost plainVars
    { plainVars with output := "./b.qcow2" }
    ["d2vm", "build", "-o", "./vm.qcow2", "/home/u/app"]
    ["d2vm", "build", "-o", "./b.qcow2", "/home/u/web"] "/home/u/app" "/home/u/web" rfl rfl

/-- C7 fails as stated: two invocations of `RunE` in one process, for two different
contexts and outputs, give the same tag `d2vm-3f0c` to `docker.Build` and to the
converter. -/
theorem C7_counterexample :
    (RunE nativeHost plainVars
        ["d2vm", "build", "-o", "./vm.qcow2", "/home/u/app"] "/home/u/app").trace.filterMap
        Event.tag? = ["d2vm-3f0c", "d2vm-3f0c"]
      ∧ (RunE nativeHost
          { varsAfter plainVars (RunE nativeHost plainVars
              ["d2vm", "build", "-o", "./vm.qcow2", "/home/u/app"] "/home/u/app") with
            output := "./b.qcow2" }
          ["d2vm", "build", "-o", "./b.qcow2", "/home/u/web"] "/home/u/web").trace.filterMap
          Event.tag? = ["d2vm-3f0c", "d2vm-3f0c"] := by
  decide

/-! ## The rewrite of the argument vector -/

theorem rewriteArgs_of_rel (file output arg0 in_ dockerFileAbsPath rel : String)
    (hrel : Rel in_ dockerFileAbsPath = .ok rel) (dargs : List String) :
    rewriteArgs file output arg0 in_ dockerFileAbsPath dargs =
      .ok (dargs.map (translated file output arg0 rel)) := by
  induction dargs with
  | nil => rfl
  | cons d ds ih =>
    simp only [rewriteArgs, ih, rewriteArg, hrel, List.map_cons, translated]
    split_ifs <;> rfl

theorem rewriteArgs_without_file (file output arg0 in_ dockerFileAbsPath rel : String)
    (dargs : List String) (hfile : file ∉ dargs) :
    rewriteArgs file output arg0 in_ dockerFileAbsPath dargs =
      .ok (dargs.map (translated file output arg0 rel)) := by
  induction dargs with
  | nil => rfl
  | cons d ds ih =>
    have hd : d ≠ file := fun h => hfile (by simp [h])
    have hds : file ∉ ds := fun h => hfile (by simp [h])
    simp only [rewriteArgs, ih hds, rewriteArg, hd, if_false, List.map_cons, translated]
    split_ifs <;> rfl

theorem rewriteArgs_rel_error (file output arg0 in_ dockerFileAbsPath e : String)
    (hrel : Rel in_ dockerFileAbsPath = .error e) (dargs : List String) (hfile : file ∈ dargs) :
    rewriteArgs file output arg0 in_ dockerFileAbsPath dargs =
      .error ("failed to construct Dockerfile container paths: " ++ e) := by
  induction dargs with
  | nil => simp at hfile
  | cons d ds ih =>
    by_cases hd : d = file
    · simp only [rewriteArgs, rewriteArg, hd, if_true, hrel]
    · have hds : file ∈ ds := by
        rcases List.mem_cons.1 hfile with h | h
        · exact absurd h.symm hd
        · exact h
      simp only [rewriteArgs, rewriteArg, hd, if_false, ih hds]
      split_ifs <;> rfl

/-- C4 (amended): the rewrite keeps the length and the order of the argument vector and
works token by token: every token equal to the build file becomes `Join("/in", rel)`, every
other token equal to the output becomes `Join("/out", Base(output))`, every other token equal
to the context argument becomes `/in`, at each position where such a token stands, and a
token equal to none of the three is left as it is. The loop returns an error, and no vector,
only when `Rel` fails and a token equals the build file, which does not happen for two paths
resolved against a rooted working directory. -/
theorem C4_rewrite_is_by_value (file output arg0 in_ dockerFileAbsPath : String)
    (dargs : List String) :
    (∀ rel, Rel in_ dockerFileAbsPath = .ok rel ∨ file ∉ dargs →
        rewriteArgs file output arg0 in_ dockerFileAbsPath dargs =
          .ok (dargs.map fun v =>
            if v = file then Join ["/in", rel]
            else if v = output then Join ["/out", Base output]
            else if v = arg0 then "/in"
            else v))
      ∧ (∀ out, rewriteArgs file output arg0 in_ dockerFileAbsPath dargs = .ok out →
          out.length = dargs.length
            ∧ ∀ (i : Nat) (v : String), dargs[i]? = some v → v ≠ file → v ≠ output →
                v ≠ arg0 → out[i]? = some v)
      ∧ (∀ e, Rel in_ dockerFileAbsPath = .error e → file ∈ dargs →
          rewriteArgs file output arg0 in_ dockerFileAbsPath dargs =
            .error ("failed to construct Dockerfile container paths: " ++ e))
      ∧ (∀ wd a b, IsAbs wd = true → Abs (.ok wd) a = .ok in_ →
          Abs (.ok wd) b = .ok dockerFileAbsPath →
          ∃ out, rewriteArgs file output arg0 in_ dockerFileAbsPath dargs = .ok out) := by
  have key : ∀ rel, Rel in_ dockerFileAbsPath = .ok rel ∨ file ∉ dargs →
      rewriteArgs file output arg0 in_ dockerFileAbsPath dargs =
        .ok (dargs.map (translated file output arg0 rel)) := by
    rintro rel (h | h)
    · exact rewriteArgs_of_rel _ _ _ _ _ _ h _
    · exact rewriteArgs_without_file _ _ _ _ _ _ _ h
  refine ⟨key, ?_, fun e he hf => rewriteArgs_rel_error _ _ _ _ _ _ he _ hf, ?_⟩
  swap
  · intro wd a b hwd ha hb
    obtain ⟨rel, hrel⟩ := Rel_of_Abs wd a b _ _ hwd ha hb
    exact ⟨_, key rel (Or.inl hrel)⟩
  intro out hout
  have hmap : ∃ rel, out = dargs.map (translated file output arg0 rel) := by
    cases hrel : Rel in_ dockerFileAbsPath with
    | ok rel =>
      rw [key rel (Or.inl hrel)] at hout
      exact ⟨rel, (Except.ok.inj hout).symm⟩
    | error e =>
      by_cases hf : file ∈ dargs
      · rw [rewriteArgs_rel_error _ _ _ _ _ _ hrel _ hf] at hout
        cases hout
      · rw [key "" (Or.inr hf)] at hout
        exact ⟨"", (Except.ok.inj hout).symm⟩
  obtain ⟨rel, rfl⟩ := hmap
  refine ⟨List.length_map _ _, ?_⟩
  intro i v hv h1 h2 h3
  simp only [List.getElem?_map, hv, Option.map_some', translated, h1, h2, h3, if_false]

/-- C4 fails as stated: in `-p vm.qcow2 -o vm.qcow2 /home/u/app` the password carries the
same string as the output, and both tokens are rewritten, not only the first. -/
theorem C4_counterexample :
    rewriteArgs "/home/u/app/Dockerfile" "vm.qcow2" "/home/u/app" "/home/u/app"
        "/home/u/app/Dockerfile" ["-p", "vm.qcow2", "-o", "vm.qcow2", "/home/u/app"]
        = .ok ["-p", "/out/vm.qcow2", "-o", "/out/vm.qcow2", "/in"]
      ∧ (RunE helperHost { plainVars with output := "vm.qcow2", password := "vm.qcow2" }
          ["d2vm", "build", "-p", "vm.qcow2", "-o", "vm.qcow2", "/home/u/app"]
          "/home/u/app").trace
          = [Event.interactive "docker"
              ["run", "--rm", "-it", "--privileged", "-e", "SUDO_UID=1000",
                "-v", "/var/run/docker.sock:/var/run/docker.sock",
                "-v", "/home/u/app:/in", "-v", "/home/u:/out", "-w", "/d2vm",
                "linkacloud/d2vm:latest", "build",
                "-p", "/out/vm.qcow2", "-o", "/out/vm.qcow2", "/in"]] := by
  decide

/-! ## The nesting check -/

/-- C1 (amended): in helper mode, when the resolved absolute build-file path does not begin
with the resolved absolute context directory, character for character, the command returns
the error `Dockerfile must be in the context directory path` and performs no step at all.
Such a build file is never a descendant of the context directory. -/
theorem C1_build_file_outside_context (w : World) (v : Vars) (osArgs : List String)
    (arg0 ctxAbsPath dockerFileAbsPath : String) (hm : needsHelper w = true)
    (hctx : Abs w.getwd arg0 = .ok ctxAbsPath)
    (hfile : Abs w.getwd (defaultFile v.file arg0) = .ok dockerFileAbsPath)
    (hpre : HasPrefix dockerFileAbsPath ctxAbsPath = false) :
    (RunE w v osArgs arg0).err = some "Dockerfile must be in the context directory path"
      ∧ (RunE w v osArgs arg0).trace = []
      ∧ (∀ wd, w.getwd = .ok wd → IsAbs wd = true →
          isPathDescendant dockerFileAbsPath ctxAbsPath = false) := by
  refine ⟨?_, ?_, ?_⟩
  · simp only [RunE, hm, if_true, runHelper, hctx, hfile, hpre, Bool.not_false]
  · simp only [RunE, hm, if_true, runHelper, hctx, hfile, hpre, Bool.not_false]
  · intro wd hgetwd hwd
    rw [hgetwd] at hctx hfile
    exact not_descendant_of_not_hasPrefix wd _ _ _ _ hwd hctx hfile hpre

theorem C1_build_file_outside_context_witness :
    (RunE helperHost { plainVars with file := "/tmp/Dockerfile" }
        ["d2vm", "build", "-f", "/tmp/Dockerfile", "-o", "./vm.qcow2", "/home/u/app"]
        "/home/u/app").err = some "Dockerfile must be in the context directory path"
      ∧ (RunE helperHost { plainVars with file := "/tmp/Dockerfile" }
        ["d2vm", "build", "-f", "/tmp/Dockerfile", "-o", "./vm.qcow2", "/home/u/app"]
        "/home/u/app").trace = [] :=
  have h := C1_build_file_outside_context helperHost { plainVars with file := "/tmp/Dockerfile" }
    ["d2vm", "build", "-f", "/tmp/Dockerfile", "-o", "./vm.qcow2", "/home/u/app"]
    "/home/u/app" "/home/u/app" "/tmp/Dockerfile" (by decide) (by decide) (by decide)
    (by decide)
  ⟨h.1, h.2.1⟩

/-- C1 fails as stated, in two ways. In native mode there is no nesting check: with
`-f /tmp/Dockerfile` and the context `/home/u/app` the command builds, converts and chowns.
In helper mode the check compares characters: `/home/u/app2/Dockerfile` is not below
`/home/u/app`, yet the command returns no error and launches the helper. -/
theorem C1_counterexample :
    (isPathDescendant "/tmp/Dockerfile" "/home/u/app" = false
        ∧ needsHelper nativeHost = false
        ∧ (RunE nativeHost { plainVars with file := "/tmp/Dockerfile" }
            ["d2vm", "build", "-f", "/tmp/Dockerfile", "-o", "./vm.qcow2", "/home/u/app"]
            "/home/u/app").err = none
        ∧ (RunE nativeHost { plainVars with file := "/tmp/Dockerfile" }
            ["d2vm", "build", "-f", "/tmp/Dockerfile", "-o", "./vm.qcow2", "/home/u/app"]
            "/home/u/app").trace.map Event.stage
            = [Stage.outputCheck, Stage.build, Stage.convert, Stage.ownershipFix])
      ∧ (Abs helperHost.getwd "/home/u/app" = .ok "/home/u/app"
        ∧ Abs helperHost.getwd "/home/u/app2/Dockerfile" = .ok "/home/u/app2/Dockerfile"
        ∧ isPathDescendant "/home/u/app2/Dockerfile" "/home/u/app" = false
        ∧ needsHelper helperHost = true
        ∧ (RunE helperHost { plainVars with file := "/home/u/app2/Dockerfile" }
            ["d2vm", "build", "-f", "/home/u/app2/Dockerfile", "-o", "./vm.qcow2",
              "/home/u/app"] "/home/u/app").err = none
        ∧ (RunE helperHost { plainVars with file := "/home/u/app2/Dockerfile" }
            ["d2vm", "build", "-f", "/home/u/app2/Dockerfile", "-o", "./vm.qcow2",
              "/home/u/app"] "/home/u/app").trace.map Event.stage = [Stage.helperLaunch]) := by
  decide

/-- C2, the code at the failing input: the context is `/home/u/app` and the build file
`/home/u/app2/Dockerfile`. The nesting check passes, because the test is on characters;
`Rel` climbs out of the context with `../app2/Dockerfile`, and the helper is launched with
`-f /app2/Dockerfile`, a path outside the mount `/in`. -/
theorem C2_translation_leaves_mount :
    needsHelper helperHost = true
      ∧ Abs helperHost.getwd "/home/u/app" = .ok "/home/u/app"
      ∧ Abs helperHost.getwd "/home/u/app2/Dockerfile" = .ok "/home/u/app2/Dockerfile"
      ∧ HasPrefix "/home/u/app2/Dockerfile" "/home/u/app" = true
      ∧ Rel "/home/u/app" "/home/u/app2/Dockerfile" = .ok "../app2/Dockerfile"
      ∧ Join ["/in", "../app2/Dockerfile"] = "/app2/Dockerfile"
      ∧ underIn "/app2/Dockerfile" = false
      ∧ (RunE helperHost { plainVars with file := "/home/u/app2/Dockerfile" }
          ["d2vm", "build", "-f", "/home/u/app2/Dockerfile", "-o", "./vm.qcow2",
            "/home/u/app"] "/home/u/app").trace
          = [Event.interactive "docker"
              ["run", "--rm", "-it", "--privileged", "-e", "SUDO_UID=1000",
                "-v", "/var/run/docker.sock:/var/run/docker.sock",
                "-v", "/home/u/app:/in", "-v", "/home/u:/out", "-w", "/d2vm",
                "linkacloud/d2vm:latest", "build",
                "-f", "/app2/Dockerfile", "-o", "/out/vm.qcow2", "/in"]] := by
  decide

/-! ## The default build file in helper mode -/

theorem cleanChars_ne_nil (p : List Char) : cleanChars p ≠ [] := by
  cases p with
  | nil => simp [cleanChars]
  | cons c cs =>
    by_cases hc : c = '/'
    · subst hc
      rw [cleanChars_rooted]
      simp
    · have hb : (c == '/') = false := by simpa using hc
      simp only [cleanChars, hb, Bool.false_eq_true, if_false]
      split_ifs with h
      · simp
      · exact h

theorem Dir_ne_empty (p : String) : Dir p ≠ "" := by
  intro h
  have hd := congrArg String.data h
  exact cleanChars_ne_nil _ hd

theorem flag_ne_default (c : String) : "-o" ≠ Join [c, "Dockerfile"] := by
  intro h
  have hs := Join_default_suffix c
  rw [← h] at hs
  have := hs.length_le
  simp at this

/-- The three tokens of `[c, "-o", o]` after the loop, when no `-f` was given and the four
values are pairwise different. -/
theorem rewriteArgs_default (c o in_ dockerFileAbsPath : String) (hco : o ≠ c)
    (ho : o ≠ "-o") (hc : c ≠ "-o") (hof : o ≠ Join [c, "Dockerfile"]) :
    rewriteArgs (Join [c, "Dockerfile"]) o c in_ dockerFileAbsPath [c, "-o", o] =
      .ok ["/in", "-o", Join ["/out", Base o]] := by
  have hmem : Join [c, "Dockerfile"] ∉ [c, "-o", o] := by
    simp only [List.mem_cons, List.mem_singleton, List.not_mem_nil, or_false, not_or]
    exact ⟨fun h => Join_default_ne_self c h.symm, fun h => flag_ne_default c h.symm,
      fun h => hof h.symm⟩
  rw [rewriteArgs_without_file _ _ _ _ _ "" _ hmem]
  simp only [List.map_cons, List.map_nil, translated, Join_default_ne_self c, Ne.symm hco,
    (flag_ne_default c), Ne.symm ho, Ne.symm hc, hof, if_false, if_true]

/-- C5 (amended): in helper mode with no `-f` flag, when `os.Getwd` returns a rooted path
and the output value `o` differs from the context argument `c`, from `-o` and from
`Join(c, "Dockerfile")`, and `c` is not `-o`: the nesting check passes, the loop turns
`[c, "-o", o]` into `["/in", "-o", Join("/out", Base(o))]`, and `docker run` is given exactly
that vector after the sub-command name `build`, with the resolved context mounted on `/in`
and the directory of the resolved output on `/out`. Run again on `/in` with no `-f`, the
command takes `Join("/in", "Dockerfile") = /in/Dockerfile` as its build file. -/
theorem C5_default_rewrite_forwarded (w : World) (v : Vars) (prog sub c o wd : String)
    (hm : needsHelper w = true) (hgetwd : w.getwd = .ok wd) (hwd : IsAbs wd = true)
    (hfile : v.file = "") (hout : v.output = o)
    (hco : o ≠ c) (ho : o ≠ "-o") (hc : c ≠ "-o") (hof : o ≠ Join [c, "Dockerfile"]) :
    ∃ ctxAbsPath dockerFileAbsPath outputPath,
      Abs w.getwd c = .ok ctxAbsPath
        ∧ Abs w.getwd (Join [c, "Dockerfile"]) = .ok dockerFileAbsPath
        ∧ Abs w.getwd o = .ok outputPath
        ∧ HasPrefix dockerFileAbsPath ctxAbsPath = true
        ∧ rewriteArgs (defaultFile v.file c) v.output c ctxAbsPath dockerFileAbsPath
            ([prog, sub, c, "-o", o].drop 2) = .ok ["/in", "-o", Join ["/out", Base o]]
        ∧ (RunE w v [prog, sub, c, "-o", o] c).trace =
            [Event.interactive "docker"
              ["run", "--rm", "-it", "--privileged", "-e", "SUDO_UID=" ++ fmtInt w.getuid,
                "-v", dockerSocket w ++ ":/var/run/docker.sock",
                "-v", ctxAbsPath ++ ":/in",
                "-v", Dir outputPath ++ ":/out",
                "-w", "/d2vm",
                (if w.image = "" then "linkacloud/d2vm" else w.image) ++ ":"
                  ++ (if w.version = "" then "latest" else w.version),
                "build", "/in", "-o", Join ["/out", Base o]]]
        ∧ defaultFile "" "/in" = Join ["/in", "Dockerfile"]
        ∧ Join ["/in", "Dockerfile"] = "/in/Dockerfile"
        ∧ (∀ (wh : World) (osArgs : List String) (size : Int), needsHelper wh = false →
            wh.parseSize v.size = .ok size →
            (RunE wh { v with output := Join ["/out", Base o] } osArgs "/in").file
              = "/in/Dockerfile") := by
  obtain ⟨G, -, -, h1, h2⟩ := Abs_default wd c hwd
  obtain ⟨H, -, -, h3⟩ := Abs_rooted_wd wd o hwd
  have hpre := HasPrefix_default wd c _ _ hwd h1 h2
  have hdf : defaultFile v.file c = Join [c, "Dockerfile"] := by simp [defaultFile, hfile]
  have hrw := rewriteArgs_default c o ⟨'/' :: joinSep G⟩
    ⟨'/' :: joinSep (G ++ ["Dockerfile".data])⟩ hco ho hc hof
  have hin : (⟨'/' :: joinSep G⟩ : String) ≠ "" := by
    intro h
    have hd := congrArg String.data h
    simp at hd
  refine ⟨_, _, _, hgetwd ▸ h1, hgetwd ▸ h2, hgetwd ▸ h3, hpre, ?_, ?_, rfl, by decide,
    ?_⟩
  · rw [hdf, hout]
    exact hrw
  · simp only [RunE, hm, if_true, runHelper, hgetwd, h1, hdf, h2, hpre, Bool.not_true,
      Bool.false_eq_true, if_false, hout, h3, List.drop_succ_cons, List.drop_zero, hrw, RunD2VM,
      hin, Dir_ne_empty, RunInteractiveAndRemove, List.cons_append, List.nil_append]
  · intro wh osArgs size hn hsize
    have hj : Join ["/in", "Dockerfile"] = "/in/Dockerfile" := by decide
    simp only [RunE, hn, Bool.false_eq_true, if_false, runNative, hsize, hfile, defaultFile,
      if_true, hj]
    split_ifs <;> try rfl
    all_goals (repeat' split) <;> rfl

theorem C5_default_rewrite_forwarded_witness :
    (∃ ctxAbsPath dockerFileAbsPath outputPath,
      Abs helperHost.getwd "/home/u/app" = .ok ctxAbsPath
        ∧ Abs helperHost.getwd (Join ["/home/u/app", "Dockerfile"]) = .ok dockerFileAbsPath
        ∧ Abs helperHost.getwd "./vm.qcow2" = .ok outputPath
        ∧ HasPrefix dockerFileAbsPath ctxAbsPath = true
        ∧ rewriteArgs (defaultFile plainVars.file "/home/u/app") plainVars.output "/home/u/app"
            ctxAbsPath dockerFileAbsPath
            (["d2vm", "build", "/home/u/app", "-o", "./vm.qcow2"].drop 2)
            = .ok ["/in", "-o", Join ["/out", Base "./vm.qcow2"]])
      ∧ rewriteArgs "/home/u/app/Dockerfile" "./vm.qcow2" "/home/u/app" "/home/u/app"
          "/home/u/app/Dockerfile" ["/home/u/app", "-o", "./vm.qcow2"]
          = .ok ["/in", "-o", "/out/vm.qcow2"]
      ∧ (RunE helperHost plainVars ["d2vm", "build", "/home/u/app", "-o", "./vm.qcow2"]
          "/home/u/app").trace
          = [Event.interactive "docker"
              ["run", "--rm", "-it", "--privileged", "-e", "SUDO_UID=1000",
                "-v", "/var/run/docker.sock:/var/run/docker.sock",
                "-v", "/home/u/app:/in", "-v", "/home/u:/out", "-w", "/d2vm",
                "linkacloud/d2vm:latest", "build", "/in", "-o", "/out/vm.qcow2"]]
      ∧ (RunE nativeHost { plainVars with output := "/out/vm.qcow2" }
          ["d2vm", "build", "/in", "-o", "/out/vm.qcow2"] "/in").trace.take 2
          = [Event.stat "/out/vm.qcow2",
              Event.run "docker" ["image", "build", "-t", "d2vm-3f0c", "-f", "/in/Dockerfile",
                "/in"]] :=
  ⟨(C5_default_rewrite_forwarded helperHost plainVars "d2vm" "build" "/home/u/app" "./vm.qcow2"
      "/home/u" (by decide) rfl (by decide) rfl rfl (by decide) (by decide) (by decide)
      (by decide)).imp fun _ h => h.imp fun _ h => h.imp fun _ h =>
        ⟨h.1, h.2.1, h.2.2.1, h.2.2.2.1, h.2.2.2.2.1⟩,
    by decide, by decide, by decide⟩

/-- C5 fails as stated, because the loop compares values. With `c = o = vm` the context
token is rewritten as the output; with `o = -o` the flag itself is rewritten; with
`o = app/Dockerfile` the output is rewritten as the build file; and a context argument `-o`
would turn the flag into `/in`. -/
theorem C5_counterexample :
    (RunE helperHost { plainVars with output := "vm" } ["d2vm", "build", "vm", "-o", "vm"]
        "vm").trace
        = [Event.interactive "docker"
            ["run", "--rm", "-it", "--privileged", "-e", "SUDO_UID=1000",
              "-v", "/var/run/docker.sock:/var/run/docker.sock",
              "-v", "/home/u/vm:/in", "-v", "/home/u:/out", "-w", "/d2vm",
              "linkacloud/d2vm:latest", "build", "/out/vm", "-o", "/out/vm"]]
      ∧ rewriteArgs (Join ["vm", "Dockerfile"]) "vm" "vm" "/home/u/vm" "/home/u/vm/Dockerfile"
          ["vm", "-o", "vm"] = .ok ["/out/vm", "-o", "/out/vm"]
      ∧ rewriteArgs (Join ["app", "Dockerfile"]) "-o" "app" "/home/u/app"
          "/home/u/app/Dockerfile" ["app", "-o", "-o"] = .ok ["/in", "/out/-o", "/out/-o"]
      ∧ rewriteArgs (Join ["app", "Dockerfile"]) "app/Dockerfile" "app" "/home/u/app"
          "/home/u/app/Dockerfile" ["app", "-o", "app/Dockerfile"]
          = .ok ["/in", "-o", "/in/Dockerfile"]
      ∧ rewriteArgs (Join ["-o", "Dockerfile"]) "vm" "-o" "/home/u/-o" "/home/u/-o/Dockerfile"
          ["-o", "-o", "vm"] = .ok ["/in", "/in", "/out/vm"] := by
  decide

end D2vm
